import Mathlib

/-!
Shallow embedding of the warlockjs/cache repository: the JS value model,
the key canonicalizer (src/utils.ts), the in-process memory driver
(MemoryCacheDriver), the shared base-driver behaviors (BaseCacheDriver),
the LRU driver, the tag decorator (TaggedCache), the manager facade
(CacheManager), and a small-step interleaving model of the `remember`
stampede guard.  Machine numbers are modelled as rationals extended with
positive infinity (JavaScript `Infinity`), and object identity is modelled
by tagging composite values with allocation addresses.
-/

namespace WarlockCache

/-- JavaScript numbers as used by the cache: a finite rational or `Infinity`. -/
inductive JNum where
  | fin (z : ℤ)
  | inf
deriving DecidableEq

/-- JS truthiness of a number: `0` is falsy, every other number (including
`Infinity`) is truthy. -/
def JNum.truthy : JNum → Bool
  | JNum.fin q => decide (q ≠ 0)
  | JNum.inf => true

/-- JS addition restricted to the values reachable in this code base:
`finite + finite` is exact, anything involving `Infinity` is `Infinity`. -/
def JNum.add : JNum → JNum → JNum
  | JNum.fin a, JNum.fin b => JNum.fin (a + b)
  | _, _ => JNum.inf

/-- Multiplication by 1000 (seconds to milliseconds), `Infinity * 1000 = Infinity`. -/
def JNum.mul1000 : JNum → JNum
  | JNum.fin a => JNum.fin (a * 1000)
  | JNum.inf => JNum.inf

/-- JS `<` on the numbers reachable here (`Infinity` is larger than every finite). -/
def JNum.lt : JNum → JNum → Bool
  | JNum.fin a, JNum.fin b => decide (a < b)
  | JNum.fin _, JNum.inf => true
  | JNum.inf, _ => false

/-- JS `<=` on the numbers reachable here. -/
def JNum.le : JNum → JNum → Bool
  | JNum.fin a, JNum.fin b => decide (a ≤ b)
  | JNum.fin _, JNum.inf => true
  | JNum.inf, JNum.inf => true
  | JNum.inf, JNum.fin _ => false

mutual

/-- JavaScript values stored in the cache.  Composite values (objects and
arrays) carry an allocation address so that reference identity and the
effect of `structuredClone` can be stated. -/
inductive JVal where
  | vNull
  | vUndef
  | vBool (b : Bool)
  | vNum (n : JNum)
  | vStr (s : String)
  | vObj (addr : Nat) (fields : JFields)
  | vArr (addr : Nat) (elems : JList)

/-- Field list of a JS object. -/
inductive JFields where
  | fnil
  | fcons (k : String) (v : JVal) (rest : JFields)

/-- Element list of a JS array. -/
inductive JList where
  | lnil
  | lcons (v : JVal) (rest : JList)

end

deriving instance DecidableEq for JVal
deriving instance DecidableEq for JFields
deriving instance DecidableEq for JList

/-- JS truthiness of a value: `null`, `undefined`, `false`, `0` and `""` are
falsy; objects and arrays are always truthy. -/
def JVal.truthy : JVal → Bool
  | JVal.vNull => false
  | JVal.vUndef => false
  | JVal.vBool b => b
  | JVal.vNum n => n.truthy
  | JVal.vStr s => s != ""
  | JVal.vObj _ _ => true
  | JVal.vArr _ _ => true

/-- `typeof v === "number"`. -/
def JVal.isNumber : JVal → Bool
  | JVal.vNum _ => true
  | _ => false

/-- Primitive (not deep-copied by `parseCachedData`): `null`, `undefined`,
strings, numbers and booleans. -/
def JVal.isPrimitive : JVal → Bool
  | JVal.vNull => true
  | JVal.vUndef => true
  | JVal.vBool _ => true
  | JVal.vNum _ => true
  | JVal.vStr _ => true
  | JVal.vObj _ _ => false
  | JVal.vArr _ _ => false

/-- Root allocation address of a composite value. -/
def JVal.rootAddr : JVal → Option Nat
  | JVal.vObj a _ => some a
  | JVal.vArr a _ => some a
  | _ => none

mutual

/-- `structuredClone`: rebuild the value graph with fresh addresses starting
at counter `c`; returns the clone together with the next unused counter. -/
def cloneVal (c : Nat) : JVal → JVal × Nat
  | JVal.vObj _ fs =>
      let r := cloneFields (c + 1) fs
      (JVal.vObj c r.1, r.2)
  | JVal.vArr _ es =>
      let r := cloneList (c + 1) es
      (JVal.vArr c r.1, r.2)
  | v => (v, c)

/-- Clone every field value, threading the address counter. -/
def cloneFields (c : Nat) : JFields → JFields × Nat
  | JFields.fnil => (JFields.fnil, c)
  | JFields.fcons k v rest =>
      let rv := cloneVal c v
      let rr := cloneFields rv.2 rest
      (JFields.fcons k rv.1 rr.1, rr.2)

/-- Clone every array element, threading the address counter. -/
def cloneList (c : Nat) : JList → JList × Nat
  | JList.lnil => (JList.lnil, c)
  | JList.lcons v rest =>
      let rv := cloneVal c v
      let rr := cloneList rv.2 rest
      (JList.lcons rv.1 rr.1, rr.2)

end

mutual

/-- Forget allocation addresses (the structural value, used for deep equality). -/
def stripVal : JVal → JVal
  | JVal.vObj _ fs => JVal.vObj 0 (stripFields fs)
  | JVal.vArr _ es => JVal.vArr 0 (stripList es)
  | v => v

/-- Strip addresses in every field value. -/
def stripFields : JFields → JFields
  | JFields.fnil => JFields.fnil
  | JFields.fcons k v rest => JFields.fcons k (stripVal v) (stripFields rest)

/-- Strip addresses in every array element. -/
def stripList : JList → JList
  | JList.lnil => JList.lnil
  | JList.lcons v rest => JList.lcons (stripVal v) (stripList rest)

end

mutual

/-- All allocation addresses occurring in a value. -/
def addrsVal : JVal → List Nat
  | JVal.vObj a fs => a :: addrsFields fs
  | JVal.vArr a es => a :: addrsList es
  | _ => []

/-- Addresses occurring in a field list. -/
def addrsFields : JFields → List Nat
  | JFields.fnil => []
  | JFields.fcons _ v rest => addrsVal v ++ addrsFields rest

/-- Addresses occurring in an element list. -/
def addrsList : JList → List Nat
  | JList.lnil => []
  | JList.lcons v rest => addrsVal v ++ addrsList rest

end

mutual

/-- Mutate the object whose address is `a`, replacing its fields by `nf`
(the model of an in-place JS object mutation). -/
def mutObjVal (a : Nat) (nf : JFields) : JVal → JVal
  | JVal.vObj b fs => if b = a then JVal.vObj b nf else JVal.vObj b (mutObjFields a nf fs)
  | JVal.vArr b es => JVal.vArr b (mutObjList a nf es)
  | v => v

/-- Apply the object mutation inside a field list. -/
def mutObjFields (a : Nat) (nf : JFields) : JFields → JFields
  | JFields.fnil => JFields.fnil
  | JFields.fcons k v rest => JFields.fcons k (mutObjVal a nf v) (mutObjFields a nf rest)

/-- Apply the object mutation inside an element list. -/
def mutObjList (a : Nat) (nf : JFields) : JList → JList
  | JList.lnil => JList.lnil
  | JList.lcons v rest => JList.lcons (mutObjVal a nf v) (mutObjList a nf rest)

end

mutual

/-- Mutate the array whose address is `a`, replacing its elements by `ne`
(the model of an in-place JS array mutation). -/
def mutArrVal (a : Nat) (ne : JList) : JVal → JVal
  | JVal.vArr b es => if b = a then JVal.vArr b ne else JVal.vArr b (mutArrList a ne es)
  | JVal.vObj b fs => JVal.vObj b (mutArrFields a ne fs)
  | v => v

/-- Apply the array mutation inside a field list. -/
def mutArrFields (a : Nat) (ne : JList) : JFields → JFields
  | JFields.fnil => JFields.fnil
  | JFields.fcons k v rest => JFields.fcons k (mutArrVal a ne v) (mutArrFields a ne rest)

/-- Apply the array mutation inside an element list. -/
def mutArrList (a : Nat) (ne : JList) : JList → JList
  | JList.lnil => JList.lnil
  | JList.lcons v rest => JList.lcons (mutArrVal a ne v) (mutArrList a ne rest)

end

/-! ## Key canonicalization (src/utils.ts, `parseCacheKey`) -/

/-- Characters stripped by `parseCacheKey`: curly braces, double quote, square brackets. -/
def isStructuralChar (c : Char) : Bool :=
  c = Char.ofNat 123 || c = Char.ofNat 125 || c = Char.ofNat 34 ||
  c = Char.ofNat 91 || c = Char.ofNat 93

/-- `parseCacheKey` replaces `:` and `,` by the path separator. -/
def replaceSepChar (c : Char) : Char :=
  if c = ':' || c = ',' then '.' else c

/-- `rtrim(s, ".")`: drop all trailing dots. -/
def rtrimDots (s : String) : String :=
  String.mk ((s.toList.reverse.dropWhile (fun c => c = '.')).reverse)

/-- Embedding of `parseCacheKey` from src/utils.ts, for string keys: strip
structural characters, replace `:`/`,` by `.`, prepend the (truthy) global
prefix (`globalPre` models the source field `globalPrefix`), and trim
trailing separators. -/
def parseCacheKey (key : String) (globalPre : Option String) : String :=
  let k := String.mk ((key.toList.filter (fun c => !isStructuralChar c)).map replaceSepChar)
  let base :=
    match globalPre with
    | some p => if p != "" then rtrimDots p ++ "." ++ k else k
    | none => k
  rtrimDots base

/-! ## Nested storage of the in-process memory driver

`MemoryCacheDriver.data` is a plain object addressed with dotted paths via
the `get`/`set`/`unset` helpers of `@mongez/reinforcements`; we model it as
a string-keyed trie whose leaves are stored cache entries. -/

/-- A stored cache entry (`CacheData`): the raw value plus the optional
ttl (seconds) and absolute expiry (epoch milliseconds). -/
structure CacheData where
  data : JVal
  ttl : Option JNum
  expiresAt : Option JNum
deriving DecidableEq

mutual

/-- A node of the nested storage object: either a stored entry (leaf) or a
plain nested object. -/
inductive MTree where
  | leaf (e : CacheData)
  | node (children : MChildren)

/-- Children of a nested storage object, in insertion order. -/
inductive MChildren where
  | cnil
  | ccons (k : String) (t : MTree) (rest : MChildren)

end

deriving instance DecidableEq for MTree
deriving instance DecidableEq for MChildren

/-- Look up a direct child by key. -/
def MChildren.find (k : String) : MChildren → Option MTree
  | MChildren.cnil => none
  | MChildren.ccons k2 t rest => if k2 = k then some t else MChildren.find k rest

/-- Replace the child at `k` (or append it, preserving insertion order). -/
def MChildren.insert (k : String) (t : MTree) : MChildren → MChildren
  | MChildren.cnil => MChildren.ccons k t MChildren.cnil
  | MChildren.ccons k2 t2 rest =>
      if k2 = k then MChildren.ccons k2 t rest
      else MChildren.ccons k2 t2 (MChildren.insert k t rest)

/-- Delete the child at `k` (JS objects have no duplicate keys, so removing
every occurrence coincides with `delete obj[k]` on all reachable stores). -/
def MChildren.erase (k : String) : MChildren → MChildren
  | MChildren.cnil => MChildren.cnil
  | MChildren.ccons k2 t rest =>
      if k2 = k then MChildren.erase k rest
      else MChildren.ccons k2 t (MChildren.erase k rest)

/-- Number of direct children (`Object.keys(obj).length` at the root). -/
def MChildren.count : MChildren → Nat
  | MChildren.cnil => 0
  | MChildren.ccons _ _ rest => 1 + MChildren.count rest

/-- `get(obj, path)` of `@mongez/reinforcements`: walk the dotted path,
`undefined` when the path walks through a non-object or is absent. -/
def MTree.getPath : List String → MTree → Option MTree
  | [], t => some t
  | s :: rest, MTree.node ch =>
      match MChildren.find s ch with
      | some t => MTree.getPath rest t
      | none => none
  | _ :: _, MTree.leaf _ => none

/-- `set(obj, path, v)`: walk the dotted path creating (or overwriting
non-object values with) intermediate objects, and store the entry. -/
def MTree.setPath : List String → CacheData → MTree → MTree
  | [], e, _ => MTree.leaf e
  | s :: rest, e, t =>
      let ch := match t with
        | MTree.node c => c
        | MTree.leaf _ => MChildren.cnil
      let sub := match MChildren.find s ch with
        | some u => u
        | none => MTree.node MChildren.cnil
      MTree.node (MChildren.insert s (MTree.setPath rest e sub) ch)

/-- `unset(obj, [path])`: delete the value at the dotted path (no-op when
the path is absent; empty intermediate objects are left in place). -/
def MTree.unsetPath : List String → MTree → MTree
  | [], t => t
  | s :: rest, t =>
      match t with
      | MTree.leaf e => MTree.leaf e
      | MTree.node ch =>
          match rest with
          | [] => MTree.node (MChildren.erase s ch)
          | _ :: _ =>
              match MChildren.find s ch with
              | some u => MTree.node (MChildren.insert s (MTree.unsetPath rest u) ch)
              | none => MTree.node ch

/-- Accumulator pass of the dotted-path splitter (`key.split(".")`):
`acc` holds the current segment's characters in reverse. -/
def splitDotAux : List Char → List Char → List String
  | [], acc => [String.mk acc.reverse]
  | c :: rest, acc =>
      if c = '.' then String.mk acc.reverse :: splitDotAux rest []
      else splitDotAux rest (c :: acc)

/-- Split a canonical key into its dotted-path segments (the empty key
yields the single empty segment, exactly like `"".split(".")`). -/
def keySegs (k : String) : List String := splitDotAux k.toList []

/-- Root-level `get(this.data, parsedKey)`. -/
def rootGet (ch : MChildren) (parsedKey : String) : Option MTree :=
  MTree.getPath (keySegs parsedKey) (MTree.node ch)

/-- Root-level `set(this.data, parsedKey, data)`. -/
def rootSet (ch : MChildren) (parsedKey : String) (e : CacheData) : MChildren :=
  match MTree.setPath (keySegs parsedKey) e (MTree.node ch) with
  | MTree.node c => c
  | MTree.leaf _ => ch

/-- Root-level `unset(this.data, [parsedKey])`. -/
def rootUnset (ch : MChildren) (parsedKey : String) : MChildren :=
  match MTree.unsetPath (keySegs parsedKey) (MTree.node ch) with
  | MTree.node c => c
  | MTree.leaf _ => ch

/-! ## Shared base-driver behaviors (src BaseCacheDriver) -/

/-- Lookup in a string-keyed association list. -/
def assocFind {α : Type} (k : String) : List (String × α) → Option α
  | [] => none
  | p :: rest => if p.1 = k then some p.2 else assocFind k rest

/-- JS object property assignment `m[k] = v` on an association list. -/
def assocSet {α : Type} (l : List (String × α)) (k : String) (v : α) : List (String × α) :=
  match l with
  | [] => [(k, v)]
  | p :: rest => if p.1 = k then (k, v) :: rest else p :: assocSet rest k v

/-- JS `delete m[k]` on an association list. -/
def assocErase {α : Type} (k : String) : List (String × α) → List (String × α)
  | [] => []
  | p :: rest => if p.1 = k then assocErase k rest else p :: assocErase k rest

/-- Remove the first occurrence of a key from a list
(`indexOf` + `splice(index, 1)`). -/
def removeFirst (key : String) : List String → List String
  | [] => []
  | k :: rest => if k = key then rest else k :: removeFirst key rest

/-- Driver options relevant to the memory driver: the optional global key
prefix (source field `globalPrefix`), the optional default ttl, and the
optional bounded size. -/
structure MemoryOptions where
  globalPre : Option String
  ttl : Option JNum
  maxSize : Option Nat
deriving DecidableEq

/-- The `ttl` getter of `BaseCacheDriver`:
`options.ttl !== undefined ? options.ttl : Infinity`. -/
def MemoryOptions.resolvedTtl (o : MemoryOptions) : JNum :=
  match o.ttl with
  | some t => t
  | none => JNum.inf

/-- Truthiness of `options.maxSize` (`0` and absent are falsy). -/
def MemoryOptions.maxSizeTruthy (o : MemoryOptions) : Bool :=
  match o.maxSize with
  | some n => decide (n ≠ 0)
  | none => false

/-- `getExpiresAt(ttl)`: `if (ttl) return Date.now() + ttl * 1000`
(`undefined` otherwise). -/
def getExpiresAt (now : ℤ) (ttl : JNum) : Option JNum :=
  if ttl.truthy then some (JNum.add (JNum.fin now) ttl.mul1000) else none

/-- `prepareDataForStorage(data, ttl)`: attach `ttl` and `expiresAt` only
when `ttl` is truthy. -/
def prepareDataForStorage (now : ℤ) (data : JVal) (ttl : Option JNum) : CacheData :=
  match ttl with
  | some t =>
      if t.truthy then CacheData.mk data (some t) (getExpiresAt now t)
      else CacheData.mk data none none
  | none => CacheData.mk data none none

/-- The expiry test of `parseCachedData`:
`data.expiresAt && data.expiresAt < Date.now()`. -/
def CacheData.expired (e : CacheData) (now : ℤ) : Bool :=
  match e.expiresAt with
  | some x => x.truthy && x.lt (JNum.fin now)
  | none => false

/-! ## Memory driver state and operations (MemoryCacheDriver) -/

/-- An entry of the expiry sweep index `temporaryData`. -/
structure TempEntry where
  rawKey : String
  expiresAt : JNum
deriving DecidableEq

/-- The mutable state of one `MemoryCacheDriver` instance. -/
structure MemoryState where
  data : MChildren
  temporaryData : List (String × TempEntry)
  accessOrder : List String
  options : MemoryOptions
deriving DecidableEq

/-- Replace the `data` field. -/
def MemoryState.withData (st : MemoryState) (d : MChildren) : MemoryState :=
  MemoryState.mk d st.temporaryData st.accessOrder st.options

/-- Replace the `temporaryData` field. -/
def MemoryState.withTemp (st : MemoryState) (t : List (String × TempEntry)) : MemoryState :=
  MemoryState.mk st.data t st.accessOrder st.options

/-- Replace the `accessOrder` field. -/
def MemoryState.withOrder (st : MemoryState) (o : List String) : MemoryState :=
  MemoryState.mk st.data st.temporaryData o st.options

/-- A fresh driver instance with the given options. -/
def memEmpty (o : MemoryOptions) : MemoryState :=
  MemoryState.mk MChildren.cnil [] [] o

/-- The driver's `parseKey` applied to a string key. -/
def MemoryState.parseKey (st : MemoryState) (key : String) : String :=
  parseCacheKey key st.options.globalPre

/-- `setTemporaryData(key, parsedKey, ttl)`. -/
def setTemporaryData (now : ℤ) (st : MemoryState) (key parsedKey : String) (ttl : JNum) :
    MemoryState :=
  st.withTemp (assocSet st.temporaryData parsedKey
    (TempEntry.mk key (JNum.add (JNum.fin now) ttl.mul1000)))

/-- `trackAccess(key)`: when `maxSize` is truthy, move the key to the
most-recently-used end of `accessOrder`. -/
def trackAccess (st : MemoryState) (key : String) : MemoryState :=
  if st.options.maxSizeTruthy then
    st.withOrder (removeFirst key st.accessOrder ++ [key])
  else st

/-- `removeFromAccessOrder(key)`. -/
def removeFromAccessOrder (st : MemoryState) (key : String) : MemoryState :=
  st.withOrder (removeFirst key st.accessOrder)

/-- `getCacheSize()`: the number of top-level keys of `this.data`. -/
def getCacheSize (st : MemoryState) : Nat := st.data.count

/-- The body of the `while` loop of `enforceMaxSize`.  Faithful to the
source: `cacheSize` was computed once before the loop and is never
recomputed, so the loop keeps evicting while the stale snapshot exceeds
`maxSize` and the access order is non-empty. -/
def evictLoop (cacheSize maxSize : Nat) :
    List String → MChildren → List (String × TempEntry) →
    List String × MChildren × List (String × TempEntry)
  | [], data, temp => ([], data, temp)
  | lruKey :: rest, data, temp =>
      if cacheSize > maxSize then
        evictLoop cacheSize maxSize rest (rootUnset data lruKey)
          (assocErase lruKey temp)
      else (lruKey :: rest, data, temp)

/-- `enforceMaxSize()`. -/
def enforceMaxSize (st : MemoryState) : MemoryState :=
  if st.options.maxSizeTruthy then
    match st.options.maxSize with
    | some m =>
        let r := evictLoop (getCacheSize st) m st.accessOrder st.data st.temporaryData
        MemoryState.mk r.2.1 r.2.2 r.1 st.options
    | none => st
  else st

/-- The ttl defaulting at the top of `set`:
`if (ttl === undefined) ttl = this.ttl`. -/
def resolveTtlMem (st : MemoryState) (ttl : Option JNum) : JNum :=
  match ttl with
  | some x => x
  | none => st.options.resolvedTtl

/-- `MemoryCacheDriver.set(key, value, ttl)`. -/
def memSet (now : ℤ) (st : MemoryState) (key : String) (value : JVal)
    (ttl : Option JNum) : MemoryState :=
  let parsedKey := st.parseKey key
  let t : JNum := resolveTtlMem st ttl
  let entry := prepareDataForStorage now value (some t)
  let st1 := if t.truthy then setTemporaryData now st key parsedKey t else st
  let isNewKey := (rootGet st1.data parsedKey).isNone
  let st2 := st1.withData (rootSet st1.data parsedKey entry)
  let st3 := trackAccess st2 parsedKey
  if isNewKey && st3.options.maxSizeTruthy then enforceMaxSize st3 else st3

/-- `MemoryCacheDriver.remove(key)`. -/
def memRemove (st : MemoryState) (key : String) : MemoryState :=
  let parsedKey := st.parseKey key
  let st1 := st.withData (rootUnset st.data parsedKey)
  let st2 := st1.withTemp (assocErase parsedKey st1.temporaryData)
  removeFromAccessOrder st2 parsedKey

/-- View a fetched storage node the way `parseCachedData` receives it: a
leaf is the stored `CacheData`; a nested plain object has `undefined`
`data`, `ttl` and `expiresAt` properties. -/
def nodeAsCacheData : MTree → CacheData
  | MTree.leaf e => e
  | MTree.node _ => CacheData.mk JVal.vUndef none none

/-- `parseCachedData(key, data)`: on expiry remove the key and report
`null`; otherwise return the value, deep-cloning non-primitives (clone
addresses are allocated from the counter `fresh`). -/
def parseCachedData (now : ℤ) (fresh : Nat) (st : MemoryState) (key : String)
    (cd : CacheData) : JVal × MemoryState :=
  if cd.expired now then (JVal.vNull, memRemove st key)
  else if cd.data.isPrimitive then (cd.data, st)
  else ((cloneVal fresh cd.data).1, st)

/-- `MemoryCacheDriver.get(key)`. -/
def memGet (now : ℤ) (fresh : Nat) (st : MemoryState) (key : String) :
    JVal × MemoryState :=
  let parsedKey := st.parseKey key
  match rootGet st.data parsedKey with
  | none => (JVal.vNull, st)
  | some t =>
      let r := parseCachedData now fresh st parsedKey (nodeAsCacheData t)
      if r.1 = JVal.vNull then r
      else (r.1, trackAccess r.2 parsedKey)

/-- The stored entry backing a key (for stating invariants about `set`). -/
def memStoredEntry (st : MemoryState) (key : String) : Option CacheData :=
  match rootGet st.data (st.parseKey key) with
  | some (MTree.leaf e) => some e
  | _ => none

/-- `BaseCacheDriver.forever(key, value)`: `set` with `Infinity`. -/
def memForever (now : ℤ) (st : MemoryState) (key : String) (value : JVal) :
    MemoryState :=
  memSet now st key value (some JNum.inf)

/-- `BaseCacheDriver.has(key)`: `get(key) !== null`. -/
def memHas (now : ℤ) (fresh : Nat) (st : MemoryState) (key : String) :
    Bool × MemoryState :=
  let r := memGet now fresh st key
  (decide (r.1 ≠ JVal.vNull), r.2)

/-- Errors surfaced by the embedded operations. -/
inductive CacheErr where
  | incrementTypeMismatch (key : String)
  | notInitialized
deriving DecidableEq

instance {ε α : Type} [DecidableEq ε] [DecidableEq α] : DecidableEq (Except ε α) := fun a b =>
  match a, b with
  | Except.ok x, Except.ok y => decidable_of_iff (x = y) (by simp)
  | Except.error x, Except.error y => decidable_of_iff (x = y) (by simp)
  | Except.ok _, Except.error _ => isFalse (by simp)
  | Except.error _, Except.ok _ => isFalse (by simp)

/-- `BaseCacheDriver.increment(key, value)`: read the current value with
`(await this.get(key)) || 0`, throw on a truthy non-number, otherwise add
and persist (the follow-up `set` has no explicit ttl). -/
def memIncrement (now : ℤ) (fresh : Nat) (st : MemoryState) (key : String)
    (delta : ℤ) : Except CacheErr JNum × MemoryState :=
  let r := memGet now fresh st key
  let current : JVal := if r.1.truthy then r.1 else JVal.vNum (JNum.fin 0)
  match current with
  | JVal.vNum n =>
      let newValue := JNum.add n (JNum.fin delta)
      (Except.ok newValue, memSet now r.2 key (JVal.vNum newValue) none)
  | _ => (Except.error (CacheErr.incrementTypeMismatch (st.parseKey key)), r.2)

/-- `BaseCacheDriver.decrement(key, value)`: `increment(key, -value)`. -/
def memDecrement (now : ℤ) (fresh : Nat) (st : MemoryState) (key : String)
    (delta : ℤ) : Except CacheErr JNum × MemoryState :=
  memIncrement now fresh st key (-delta)

/-- Outcome of one sequential `remember` call. -/
structure RememberOutcome where
  result : JVal
  state : MemoryState
  producerInvoked : Bool
deriving DecidableEq

/-- `BaseCacheDriver.remember(key, ttl, callback)` run to completion with no
concurrent callers: check the cache with a truthiness test, then the lock
table, then invoke the producer and persist its value (the interleaved
behavior is modelled separately below). -/
def memRemember (now : ℤ) (fresh : Nat) (st : MemoryState)
    (locks : List (String × JVal)) (key : String) (ttl : JNum)
    (producerVal : JVal) : RememberOutcome :=
  let parsedKey := st.parseKey key
  let r := memGet now fresh st key
  if r.1.truthy then RememberOutcome.mk r.1 r.2 false
  else
    match assocFind parsedKey locks with
    | some v => RememberOutcome.mk v r.2 false
    | none =>
        RememberOutcome.mk producerVal
          (memSet now r.2 key producerVal (some ttl)) true

/-! ## LRU driver (src/drivers/lru-memory-cache-driver.ts)

The intrusive doubly linked list with permanent head/tail sentinels is
modelled as a list of nodes in recency order: the list head is the node
adjacent to the head sentinel (most recent), the last element is adjacent
to the tail sentinel (least recent). -/

/-- The payload of a `CacheNode` (its `key` is the association key). -/
structure LruEntry where
  value : JVal
  expiresAt : Option JNum
deriving DecidableEq

/-- Options of the LRU driver. -/
structure LruOptions where
  globalPre : Option String
  ttl : Option JNum
  capacity : Option Nat
deriving DecidableEq

/-- The `ttl` getter (inherited from the base driver). -/
def LruOptions.resolvedTtl (o : LruOptions) : JNum :=
  match o.ttl with
  | some t => t
  | none => JNum.inf

/-- The `capacity` getter: `this.options.capacity || 1000`. -/
def LruOptions.resolvedCapacity (o : LruOptions) : Nat :=
  match o.capacity with
  | some n => if n = 0 then 1000 else n
  | none => 1000

/-- The state of one `LRUMemoryCacheDriver` instance: the nodes between the
sentinels in recency order (index + list collapsed into one association
list, which is faithful because a key is in the index iff its node is
linked). -/
structure LruState where
  cache : List (String × LruEntry)
  options : LruOptions
deriving DecidableEq

/-- Replace the node list. -/
def LruState.withCache (st : LruState) (c : List (String × LruEntry)) : LruState :=
  LruState.mk c st.options

/-- A fresh LRU driver with the given options. -/
def lruEmpty (o : LruOptions) : LruState :=
  LruState.mk [] o

/-- Remove the node of `key` from the list (`removeNode` + `cache.delete`). -/
def lruUnlink (key : String) : List (String × LruEntry) → List (String × LruEntry)
  | [] => []
  | p :: rest => if p.1 = key then rest else p :: lruUnlink key rest

/-- The expiry stamp computed on `set`/`CacheNode` construction:
`if (ttl && ttl !== Infinity) expiresAt = Date.now() + ttl * 1000`. -/
def lruExpiryStamp (now : ℤ) (t : JNum) : Option JNum :=
  if t.truthy && decide (t ≠ JNum.inf) then some (JNum.add (JNum.fin now) t.mul1000)
  else none

/-- `CacheNode.isExpired`: `expiresAt !== undefined && expiresAt < Date.now()`. -/
def lruNodeExpired (e : LruEntry) (now : ℤ) : Bool :=
  match e.expiresAt with
  | some x => x.lt (JNum.fin now)
  | none => false

/-- `LRUMemoryCacheDriver.set(key, value, ttl)`. -/
def lruSet (now : ℤ) (st : LruState) (key : String) (value : JVal)
    (ttl : Option JNum) : LruState :=
  let k := parseCacheKey key st.options.globalPre
  let t : JNum :=
    match ttl with
    | some x => x
    | none => st.options.resolvedTtl
  match assocFind k st.cache with
  | some _ =>
      let e2 := LruEntry.mk value (lruExpiryStamp now t)
      st.withCache ((k, e2) :: lruUnlink k st.cache)
  | none =>
      let newNode := LruEntry.mk value (lruExpiryStamp now t)
      let c2 := (k, newNode) :: st.cache
      if c2.length > st.options.resolvedCapacity then st.withCache c2.dropLast
      else st.withCache c2

/-- `LRUMemoryCacheDriver.get(key)`. -/
def lruGet (now : ℤ) (fresh : Nat) (st : LruState) (key : String) :
    JVal × LruState :=
  let k := parseCacheKey key st.options.globalPre
  match assocFind k st.cache with
  | none => (JVal.vNull, st)
  | some e =>
      if lruNodeExpired e now then (JVal.vNull, st.withCache (lruUnlink k st.cache))
      else
        let st2 := st.withCache ((k, e) :: lruUnlink k st.cache)
        if e.value.isPrimitive then (e.value, st2)
        else ((cloneVal fresh e.value).1, st2)

/-- `LRUMemoryCacheDriver.remove(key)`. -/
def lruRemove (st : LruState) (key : String) : LruState :=
  let k := parseCacheKey key st.options.globalPre
  st.withCache (lruUnlink k st.cache)

/-! ## Manager facade (src/cache-manager.ts)

Each facade operation calls `ensureDriverInitialized()` and then forwards
to the active driver — except `disconnect`, which only forwards when a
driver is present.  The active driver is modelled as a memory driver
instance (the delegation target is irrelevant to the initialization
check). -/

/-- The manager state: the optional active driver. -/
structure ManagerState where
  currentDriver : Option MemoryState

/-- `ensureDriverInitialized()` as a result-shaping helper. -/
def ensureDriver {α : Type} (m : ManagerState) (k : MemoryState → α) :
    Except CacheErr α :=
  match m.currentDriver with
  | none => Except.error CacheErr.notInitialized
  | some d => Except.ok (k d)

/-- `CacheManager.get`. -/
def mgrGet (now : ℤ) (fresh : Nat) (m : ManagerState) (key : String) :
    Except CacheErr (JVal × MemoryState) :=
  ensureDriver m (fun d => memGet now fresh d key)

/-- `CacheManager.set`. -/
def mgrSet (now : ℤ) (m : ManagerState) (key : String) (value : JVal)
    (ttl : Option JNum) : Except CacheErr MemoryState :=
  ensureDriver m (fun d => memSet now d key value ttl)

/-- `CacheManager.remove`. -/
def mgrRemove (m : ManagerState) (key : String) : Except CacheErr MemoryState :=
  ensureDriver m (fun d => memRemove d key)

/-- `CacheManager.removeNamespace`. -/
def mgrRemoveNamespace (m : ManagerState) (ns : String) : Except CacheErr MemoryState :=
  ensureDriver m (fun d =>
    d.withData (rootUnset d.data (d.parseKey ns)))

/-- `CacheManager.flush` (memory driver without a global prefix clears the store). -/
def mgrFlush (m : ManagerState) : Except CacheErr MemoryState :=
  ensureDriver m (fun d =>
    MemoryState.mk MChildren.cnil d.temporaryData [] d.options)

/-- `CacheManager.has`. -/
def mgrHas (now : ℤ) (fresh : Nat) (m : ManagerState) (key : String) :
    Except CacheErr (Bool × MemoryState) :=
  ensureDriver m (fun d => memHas now fresh d key)

/-- `CacheManager.remember`. -/
def mgrRemember (now : ℤ) (fresh : Nat) (m : ManagerState) (key : String)
    (ttl : JNum) (producerVal : JVal) : Except CacheErr RememberOutcome :=
  ensureDriver m (fun d => memRemember now fresh d [] key ttl producerVal)

/-- `CacheManager.pull`. -/
def mgrPull (now : ℤ) (fresh : Nat) (m : ManagerState) (key : String) :
    Except CacheErr (JVal × MemoryState) :=
  ensureDriver m (fun d =>
    let r := memGet now fresh d key
    if r.1 ≠ JVal.vNull then (r.1, memRemove r.2 key) else r)

/-- `CacheManager.forever`. -/
def mgrForever (now : ℤ) (m : ManagerState) (key : String) (value : JVal) :
    Except CacheErr MemoryState :=
  ensureDriver m (fun d => memForever now d key value)

/-- `CacheManager.increment`. -/
def mgrIncrement (now : ℤ) (fresh : Nat) (m : ManagerState) (key : String)
    (delta : ℤ) : Except CacheErr (Except CacheErr JNum × MemoryState) :=
  ensureDriver m (fun d => memIncrement now fresh d key delta)

/-- `CacheManager.decrement`. -/
def mgrDecrement (now : ℤ) (fresh : Nat) (m : ManagerState) (key : String)
    (delta : ℤ) : Except CacheErr (Except CacheErr JNum × MemoryState) :=
  ensureDriver m (fun d => memDecrement now fresh d key delta)

/-- `CacheManager.many`: fan out `get` over the keys. -/
def mgrMany (now : ℤ) (fresh : Nat) (m : ManagerState) (keys : List String) :
    Except CacheErr (List JVal) :=
  ensureDriver m (fun d => keys.map (fun k => (memGet now fresh d k).1))

/-- `CacheManager.setMany`: fan out `set` over the entries. -/
def mgrSetMany (now : ℤ) (m : ManagerState) (items : List (String × JVal))
    (ttl : Option JNum) : Except CacheErr MemoryState :=
  ensureDriver m (fun d => items.foldl (fun s p => memSet now s p.1 p.2 ttl) d)

/-- `CacheManager.parseKey`. -/
def mgrParseKey (m : ManagerState) (key : String) : Except CacheErr String :=
  ensureDriver m (fun d => d.parseKey key)

/-- `CacheManager.connect`. -/
def mgrConnect (m : ManagerState) : Except CacheErr Unit :=
  ensureDriver m (fun _ => ())

/-- `CacheManager.disconnect`: `if (this.currentDriver) await disconnect()` —
no initialization check, a missing driver is silently ignored. -/
def mgrDisconnect (m : ManagerState) : Except CacheErr Unit :=
  match m.currentDriver with
  | none => Except.ok ()
  | some _ => Except.ok ()

/-! ## Tag decorator (src/tagged-cache.ts) -/

/-- `tagKey(tag)`: the reserved key of a tag's key-set entry. -/
def tagKeyOf (tag : String) : String := "cache:tags:" ++ tag

/-- `keys.includes(key)` for a fetched tag key-set. -/
def JList.containsStr (key : String) : JList → Bool
  | JList.lnil => false
  | JList.lcons v rest =>
      (v = JVal.vStr key : Bool) || JList.containsStr key rest

/-- `keys.push(key)`. -/
def JList.pushStr (key : String) : JList → JList
  | JList.lnil => JList.lcons (JVal.vStr key) JList.lnil
  | JList.lcons v rest => JList.lcons v (JList.pushStr key rest)

/-- `keys.filter((k) => k !== parsedKey)`. -/
def JList.filterNeStr (key : String) : JList → JList
  | JList.lnil => JList.lnil
  | JList.lcons v rest =>
      if v = JVal.vStr key then JList.filterNeStr key rest
      else JList.lcons v (JList.filterNeStr key rest)

/-- The element view of `(await this.driver.get(tagKey)) || []`: a fetched
array yields its elements, every falsy result the empty array. -/
def fetchedKeys (v : JVal) : JList :=
  match v with
  | JVal.vArr _ es => es
  | _ => JList.lnil

/-- `storeTaggedKey(key)`: for each bound tag, fetch the tag's key-set,
append the canonical key when absent and persist it with infinite ttl. -/
def storeTaggedKey (now : ℤ) (fresh : Nat) (tags : List String)
    (st : MemoryState) (key : String) : MemoryState :=
  tags.foldl
    (fun s tag =>
      let tk := tagKeyOf tag
      let r := memGet now fresh s tk
      let keys := fetchedKeys r.1
      if keys.containsStr key then r.2
      else memSet now r.2 tk (JVal.vArr fresh (keys.pushStr key)) (some JNum.inf))
    st

/-- `TaggedCache.set(key, value, ttl)`. -/
def taggedSet (now : ℤ) (fresh : Nat) (tags : List String) (st : MemoryState)
    (key : String) (value : JVal) (ttl : Option JNum) : MemoryState :=
  let parsedKey := st.parseKey key
  let st1 := memSet now st key value ttl
  storeTaggedKey now fresh tags st1 parsedKey

/-- Add the string elements of a fetched key-set to a JS `Set` of strings
(insertion order, duplicates skipped). -/
def addKeysToSet : JList → List String → List String
  | JList.lnil, seen => seen
  | JList.lcons v rest, seen =>
      match v with
      | JVal.vStr s => addKeysToSet rest (if s ∈ seen then seen else seen ++ [s])
      | _ => addKeysToSet rest seen

/-- The loop of `getTaggedKeys()`: fetch each bound tag's key-set and add
its keys to the accumulated JS `Set`. -/
def getTaggedKeysAux (now : ℤ) (fresh : Nat) :
    List String → List String → MemoryState → List String × MemoryState
  | [], seen, s => (seen, s)
  | tag :: rest, seen, s =>
      let r := memGet now fresh s (tagKeyOf tag)
      getTaggedKeysAux now fresh rest (addKeysToSet (fetchedKeys r.1) seen) r.2

/-- `getTaggedKeys()`: the union of the bound tags' key-sets, in insertion
order (a JS `Set` of strings). -/
def getTaggedKeys (now : ℤ) (fresh : Nat) (tags : List String)
    (st : MemoryState) : List String × MemoryState :=
  getTaggedKeysAux now fresh tags [] st

/-- `TaggedCache.invalidate()`: remove every key of the union, then remove
the tag-index entries themselves. -/
def taggedInvalidate (now : ℤ) (fresh : Nat) (tags : List String)
    (st : MemoryState) : MemoryState :=
  let r := getTaggedKeys now fresh tags st
  let st2 := r.1.foldl (fun s k => memRemove s k) r.2
  tags.foldl (fun s t => memRemove s (tagKeyOf t)) st2

/-! ## Interleaving model of the `remember` stampede guard

`BaseCacheDriver.remember` on one driver instance and one canonical key:
each caller synchronously reads the store when the call is issued
(step `Read`, the map lookup inside `get`), then — after the awaits inside
`get` resume — runs the cache-truthiness test and the lock check/acquire
in one synchronous block (step `Check`).  A caller that acquired the lock
invokes the producer; its completion chain is the producer resolution
(`Resolve`), the `set` of the produced value (`Set`) and the lock deletion
(`Release`), each separated by an `await`, so other steps may interleave
between them.  Callers that observed an existing ticket receive that
ticket's resolution value at the `Release` of the ticket holder.
Instrumentation flags record whether a `Read` ran after the first
`Resolve` (the negation of "issued before the first producer resolves")
and whether a `Check` ran after a `Release`. -/

/-- Phase of a producing caller's completion chain. -/
inductive ProdPhase where
  | needResolve
  | needSet
  | needRelease
deriving DecidableEq

/-- Status of one `remember` caller. -/
inductive CStat where
  | ready
  | checked (snap : JVal)
  | awaitingT (t : Nat)
  | producing (ph : ProdPhase) (v : JVal)
  | doneC (r : JVal)
deriving DecidableEq

/-- The shared state of the driver instance for one canonical key, plus the
per-caller statuses and the instrumentation flags. -/
structure GState where
  cache : Option JVal
  lockT : Option Nat
  invoked : Nat
  callers : List CStat
  resolvedOnce : Bool
  released : Bool
  readAfterRes : Bool
  checkAfterRel : Bool
deriving DecidableEq

/-- Update caller `i`'s status. -/
def GState.setCaller (g : GState) (i : Nat) (c : CStat) : GState :=
  GState.mk g.cache g.lockT g.invoked (g.callers.set i c)
    g.resolvedOnce g.released g.readAfterRes g.checkAfterRel

/-- Resolution of one caller when ticket `t` settles with value `v`. -/
def settleOne (t : Nat) (v : JVal) (c : CStat) : CStat :=
  match c with
  | CStat.awaitingT t2 => if t2 = t then CStat.doneC v else c
  | _ => c

/-- Resolve every caller awaiting ticket `t` with value `v` (their awaited
promise settles when the ticket holder's chain completes). -/
def settleAwaiting (t : Nat) (v : JVal) : List CStat → List CStat
  | [] => []
  | c :: rest => settleOne t v c :: settleAwaiting t v rest

/-- One scheduler step: caller `i` executes its next pending action. -/
def stepG (prodVal : Nat → JVal) (g : GState) (i : Nat) : GState :=
  match g.callers.get? i with
  | none => g
  | some c =>
      match c with
      | CStat.ready =>
          let snap :=
            match g.cache with
            | some v => v
            | none => JVal.vNull
          GState.mk g.cache g.lockT g.invoked
            (g.callers.set i (CStat.checked snap)) g.resolvedOnce g.released
            (g.readAfterRes || g.resolvedOnce) g.checkAfterRel
      | CStat.checked snap =>
          let flag := g.checkAfterRel || g.released
          if snap.truthy then
            GState.mk g.cache g.lockT g.invoked
              (g.callers.set i (CStat.doneC snap)) g.resolvedOnce g.released
              g.readAfterRes flag
          else
            match g.lockT with
            | some t =>
                GState.mk g.cache g.lockT g.invoked
                  (g.callers.set i (CStat.awaitingT t)) g.resolvedOnce g.released
                  g.readAfterRes flag
            | none =>
                GState.mk g.cache (some i) (g.invoked + 1)
                  (g.callers.set i
                    (CStat.producing ProdPhase.needResolve (prodVal g.invoked)))
                  g.resolvedOnce g.released g.readAfterRes flag
      | CStat.producing ProdPhase.needResolve v =>
          GState.mk g.cache g.lockT g.invoked
            (g.callers.set i (CStat.producing ProdPhase.needSet v)) true
            g.released g.readAfterRes g.checkAfterRel
      | CStat.producing ProdPhase.needSet v =>
          GState.mk (some v) g.lockT g.invoked
            (g.callers.set i (CStat.producing ProdPhase.needRelease v))
            g.resolvedOnce g.released g.readAfterRes g.checkAfterRel
      | CStat.producing ProdPhase.needRelease v =>
          GState.mk g.cache none g.invoked
            ((settleAwaiting i v g.callers).set i (CStat.doneC v))
            g.resolvedOnce true g.readAfterRes g.checkAfterRel
      | CStat.awaitingT _ => g
      | CStat.doneC _ => g

/-- The initial state for `n` concurrent callers of a cold key. -/
def initG (n : Nat) : GState :=
  GState.mk none none 0 (List.replicate n CStat.ready) false false false false

/-- Run a schedule (a list of caller indices). -/
def runG (prodVal : Nat → JVal) (n : Nat) (sched : List Nat) : GState :=
  sched.foldl (stepG prodVal) (initG n)

/-- The producer of the concrete counterexample run: invocation `k`
resolves to the number `k` (so the first produced value is the falsy `0`). -/
def prodCount (k : Nat) : JVal := JVal.vNum (JNum.fin k)

/-- Caller `i` is currently producing (holds an unreleased ticket). -/
def CStat.isProducing : CStat → Bool
  | CStat.producing _ _ => true
  | _ => false

/-- Caller `i` finished with a result. -/
def CStat.isDone : CStat → Bool
  | CStat.doneC _ => true
  | _ => false

/-- Number of callers currently holding an unreleased ticket. -/
def producingCount (g : GState) : Nat :=
  (g.callers.filter CStat.isProducing).length

/-- A caller that has taken no observable action yet: not started, or it
observed a cold cache. -/
def passiveStat (c : CStat) : Prop :=
  c = CStat.ready ∨ c = CStat.checked JVal.vNull

/-- The lock table invariant: the lock names a producing caller, and every
producing caller holds the lock — hence at most one ticket exists. -/
def ticketInv (g : GState) : Prop :=
  (∀ i, g.lockT = some i →
    ∃ ph v, g.callers.get? i = some (CStat.producing ph v)) ∧
  (∀ i ph v, g.callers.get? i = some (CStat.producing ph v) →
    g.lockT = some i)

/-- No producer has been invoked yet: cold cache, free lock, all callers
passive. -/
def caseZero (g : GState) : Prop :=
  g.invoked = 0 ∧ g.cache = none ∧ g.lockT = none ∧ g.released = false ∧
  ∀ i c, g.callers.get? i = some c → passiveStat c

/-- The unique producer `p` has not yet written the cache. -/
def caseRun (prodVal : Nat → JVal) (g : GState) (p : Nat) : Prop :=
  (g.callers.get? p =
      some (CStat.producing ProdPhase.needResolve (prodVal 0)) ∨
    g.callers.get? p = some (CStat.producing ProdPhase.needSet (prodVal 0))) ∧
  g.lockT = some p ∧ g.released = false ∧ g.cache = none ∧
  ∀ i c, i ≠ p → g.callers.get? i = some c →
    (passiveStat c ∨ c = CStat.awaitingT p)

/-- The unique producer `p` wrote the cache but has not yet released. -/
def caseSet (prodVal : Nat → JVal) (g : GState) (p : Nat) : Prop :=
  g.callers.get? p =
    some (CStat.producing ProdPhase.needRelease (prodVal 0)) ∧
  g.lockT = some p ∧ g.released = false ∧ g.cache = some (prodVal 0) ∧
  ∀ i c, i ≠ p → g.callers.get? i = some c →
    (passiveStat c ∨ c = CStat.checked (prodVal 0) ∨ c = CStat.awaitingT p ∨
      c = CStat.doneC (prodVal 0))

/-- The unique producer `p` finished: the lock is free, the cache holds the
produced value, and every finished caller got it. -/
def caseDone (prodVal : Nat → JVal) (g : GState) (p : Nat) : Prop :=
  g.callers.get? p = some (CStat.doneC (prodVal 0)) ∧
  g.lockT = none ∧ g.released = true ∧ g.cache = some (prodVal 0) ∧
  ∀ i c, i ≠ p → g.callers.get? i = some c →
    (passiveStat c ∨ c = CStat.checked (prodVal 0) ∨
      c = CStat.doneC (prodVal 0))

/-- The inductive invariant of the stampede guard: the ticket invariant
holds in every reachable state, and as long as no lock check has run after
a release, at most one producer invocation has happened and the system is
in one of the three single-producer stages (or still cold). -/
def stampedeInv (prodVal : Nat → JVal) (g : GState) : Prop :=
  ticketInv g ∧
  (g.checkAfterRel = false →
    caseZero g ∨
    (g.invoked = 1 ∧
      ∃ p, caseRun prodVal g p ∨ caseSet prodVal g p ∨ caseDone prodVal g p))

/-! ## Key-shape predicates and concrete scenario states used by the theorems -/

/-- A flat, canonicalization-stable cache key: parsing is the identity, the
key is a single path segment, and it does not collide with the reserved
`cache` namespace of the tag index. -/
def flatPlainKey (k : String) : Bool :=
  decide (parseCacheKey k none = k) && decide (keySegs k = [k]) &&
  decide (k ≠ "cache")

/-- A well-behaved tag name: its tag-index key canonicalizes to the stable
three-segment path `cache.tags.t`. -/
def tagPathOk (t : String) : Bool :=
  decide (parseCacheKey (tagKeyOf t) none = "cache.tags." ++ t) &&
  decide (keySegs ("cache.tags." ++ t) = ["cache", "tags", t]) &&
  decide (parseCacheKey ("cache.tags." ++ t) none = "cache.tags." ++ t)

/-- Memory options with `maxSize = 2` and no default ttl or prefix. -/
def c1opts : MemoryOptions := MemoryOptions.mk none none (some 2)

/-- C1 scenario: `set("a", 1); set("b", 2)` on an empty bounded store. -/
def c1afterAB : MemoryState :=
  memSet 0 (memSet 0 (memEmpty c1opts) "a" (JVal.vNum (JNum.fin 1)) none)
    "b" (JVal.vNum (JNum.fin 2)) none

/-- C1 scenario: the over-capacity third insert `set("c", 3)`. -/
def c1final : MemoryState :=
  memSet 0 c1afterAB "c" (JVal.vNum (JNum.fin 3)) none

/-- Plain memory options: no prefix, no default ttl, no bound. -/
def plainOpts : MemoryOptions := MemoryOptions.mk none none none

/-- C2 scenario: the falsy number `0` cached under `"k"`. -/
def c2cachedZero : MemoryState :=
  memSet 0 (memEmpty plainOpts) "k" (JVal.vNum (JNum.fin 0)) none

/-- C4 scenario: the empty string cached under `"k"`. -/
def c4cachedEmptyStr : MemoryState :=
  memSet 0 (memEmpty plainOpts) "k" (JVal.vStr "") none

/-- C4 scenario: the non-empty string cached under `"k"`. -/
def c4cachedText : MemoryState :=
  memSet 0 (memEmpty plainOpts) "k" (JVal.vStr "text") none

/-- C5 scenario: `forever("k", "v")` on an empty plain store. -/
def c5foreverState : MemoryState :=
  memForever 0 (memEmpty plainOpts) "k" (JVal.vStr "v")

/-- C6 scenario: tag `A` on `key1`/`key2` and tag `B` on `key3`. -/
def c6built : MemoryState :=
  taggedSet 0 70 ["B"]
    (taggedSet 0 60 ["A"]
      (taggedSet 0 50 ["A"] (memEmpty plainOpts) "key1" (JVal.vStr "v1") none)
      "key2" (JVal.vStr "v2") none)
    "key3" (JVal.vStr "v3") none

/-- C6 scenario: invalidating the instance bound to tag `A`. -/
def c6invalidated : MemoryState := taggedInvalidate 0 80 ["A"] c6built

/-- A small composite value (an object with one field) used as a clone witness. -/
def sampleObj : JVal :=
  JVal.vObj 5 (JFields.fcons "x" (JVal.vNum (JNum.fin 1)) JFields.fnil)

/-- LRU options with capacity 2. -/
def c8opts : LruOptions := LruOptions.mk none none (some 2)

/-- C8 scenario: `set("a",1); set("b",2)` at capacity 2. -/
def c8afterAB : LruState :=
  lruSet 0 (lruSet 0 (lruEmpty c8opts) "a" (JVal.vNum (JNum.fin 1)) none)
    "b" (JVal.vNum (JNum.fin 2)) none

/-- C8 scenario: the third insert without an intervening `get`. -/
def c8evictA : LruState :=
  lruSet 0 c8afterAB "c" (JVal.vNum (JNum.fin 3)) none

/-- C8 scenario: `get("a")` between the second and third `set`, then `set("c",3)`. -/
def c8evictB : LruState :=
  lruSet 0 (lruGet 0 0 c8afterAB "a").2 "c" (JVal.vNum (JNum.fin 3)) none

/-- The uninitialized manager (no `use`/`init` has run). -/
def mgrUninit : ManagerState := ManagerState.mk none

/-- C3 counterexample schedule: both callers issue their store read before
the first producer resolves, but the second caller's lock check is delayed
past the release of the first ticket. -/
def c3sched : List Nat := [0, 1, 0, 0, 0, 0, 1, 1, 1, 1]

/-- C3 counterexample run with the counting producer. -/
def c3run : GState := runG prodCount 2 c3sched

/-! ## Store lemmas -/

theorem MChildren.find_insert (k : String) (t : MTree) :
    (ch : MChildren) → MChildren.find k (MChildren.insert k t ch) = some t
  | MChildren.cnil => by simp [MChildren.insert, MChildren.find]
  | MChildren.ccons k2 t2 rest => by
      by_cases h : k2 = k
      · simp [MChildren.insert, MChildren.find, h]
      · simp [MChildren.insert, MChildren.find, h,
          MChildren.find_insert k t rest]

theorem MChildren.find_insert_ne (k k2 : String) (t : MTree) (h : k ≠ k2) :
    (ch : MChildren) →
      MChildren.find k (MChildren.insert k2 t ch) = MChildren.find k ch
  | MChildren.cnil => by
      have h2 : ¬(k2 = k) := fun hh => h hh.symm
      simp [MChildren.insert, MChildren.find, h2]
  | MChildren.ccons k3 t3 rest => by
      by_cases h3 : k3 = k2
      · have h2 : ¬(k2 = k) := fun hh => h hh.symm
        simp [MChildren.insert, MChildren.find, h3, h2]
      · simp only [MChildren.insert, MChildren.find, h3, if_false]
        by_cases h4 : k3 = k
        · simp [MChildren.find, h4]
        · simp [MChildren.find, h4, MChildren.find_insert_ne k k2 t h rest]

theorem MChildren.find_erase_self (k : String) :
    (ch : MChildren) → MChildren.find k (MChildren.erase k ch) = none
  | MChildren.cnil => by simp [MChildren.erase, MChildren.find]
  | MChildren.ccons k2 t rest => by
      by_cases h : k2 = k
      · simp [MChildren.erase, MChildren.find, h,
          MChildren.find_erase_self k rest]
      · simp [MChildren.erase, MChildren.find, h,
          MChildren.find_erase_self k rest]

theorem MChildren.find_erase_ne (k k2 : String) (h : k ≠ k2) :
    (ch : MChildren) →
      MChildren.find k (MChildren.erase k2 ch) = MChildren.find k ch
  | MChildren.cnil => by simp [MChildren.erase]
  | MChildren.ccons k3 t rest => by
      by_cases h3 : k3 = k2
      · have h2 : ¬(k2 = k) := fun hh => h hh.symm
        simp [MChildren.erase, MChildren.find, h3, h2,
          MChildren.find_erase_ne k k2 h rest]
      · simp [MChildren.erase, MChildren.find, h3,
          MChildren.find_erase_ne k k2 h rest]

theorem MTree.getPath_setPath (p : List String) (e : CacheData) (t : MTree) :
    MTree.getPath p (MTree.setPath p e t) = some (MTree.leaf e) := by
  induction p generalizing t with
  | nil => rfl
  | cons s rest ih =>
      simp only [MTree.setPath, MTree.getPath, MChildren.find_insert]
      exact ih _

theorem splitDotAux_ne_nil : (cs acc : List Char) → splitDotAux cs acc ≠ []
  | [], acc => by simp [splitDotAux]
  | c :: rest, acc => by
      by_cases h : c = '.'
      · simp [splitDotAux, h]
      · simp only [splitDotAux, h, if_false]
        exact splitDotAux_ne_nil rest (c :: acc)

theorem keySegs_ne_nil (k : String) : keySegs k ≠ [] :=
  splitDotAux_ne_nil k.toList []

theorem rootGet_rootSet (ch : MChildren) (k : String) (e : CacheData) :
    rootGet (rootSet ch k e) k = some (MTree.leaf e) := by
  unfold rootGet rootSet
  rcases h : keySegs k with _ | ⟨s, rest⟩
  · exact absurd h (keySegs_ne_nil k)
  · simp only [MTree.setPath, MTree.getPath, MChildren.find_insert]
    exact MTree.getPath_setPath rest e _

/-- `memSet` without a truthy `maxSize` stores exactly the prepared entry. -/
theorem memStoredEntry_memSet (now : ℤ) (st : MemoryState) (key : String)
    (v : JVal) (ttl : Option JNum) (hmax : st.options.maxSizeTruthy = false) :
    memStoredEntry (memSet now st key v ttl) key =
      some (prepareDataForStorage now v (some (resolveTtlMem st ttl))) := by
  unfold memSet memStoredEntry trackAccess
  rcases hts : (resolveTtlMem st ttl).truthy with _ | _ <;>
    simp only [hts, setTemporaryData, MemoryState.withTemp, MemoryState.withData,
      MemoryState.parseKey, MemoryState.withOrder, Bool.false_eq_true, if_false,
      if_true, hmax, Bool.and_false, Bool.false_and, Bool.and_true] <;>
    simp [hmax, rootGet_rootSet]

/-- `memSet` without a truthy `maxSize` leaves `temporaryData` untouched
when the resolved ttl is falsy. -/
theorem memSet_temp_of_falsy_ttl (now : ℤ) (st : MemoryState) (key : String)
    (v : JVal) (ttl : Option JNum) (hmax : st.options.maxSizeTruthy = false)
    (hts : (resolveTtlMem st ttl).truthy = false) :
    (memSet now st key v ttl).temporaryData = st.temporaryData := by
  unfold memSet trackAccess
  simp [hts, hmax, MemoryState.withData]

theorem trackAccess_data (st : MemoryState) (k : String) :
    (trackAccess st k).data = st.data := by
  unfold trackAccess MemoryState.withOrder
  split <;> rfl

theorem trackAccess_options (st : MemoryState) (k : String) :
    (trackAccess st k).options = st.options := by
  unfold trackAccess MemoryState.withOrder
  split <;> rfl

theorem trackAccess_temp (st : MemoryState) (k : String) :
    (trackAccess st k).temporaryData = st.temporaryData := by
  unfold trackAccess MemoryState.withOrder
  split <;> rfl

/-- A `get` either reports `null` or leaves the data store and the options
unchanged (the only state change on a non-null result is the access-order
bookkeeping). -/
theorem memGet_null_or_preserves (now : ℤ) (fresh : Nat) (st : MemoryState)
    (key : String) :
    (memGet now fresh st key).1 = JVal.vNull ∨
    ((memGet now fresh st key).2.data = st.data ∧
     (memGet now fresh st key).2.options = st.options) := by
  unfold memGet parseCachedData
  rcases hg : rootGet st.data (st.parseKey key) with _ | t
  · simp [hg]
  · by_cases he : (nodeAsCacheData t).expired now = true
    · simp [hg, he]
    · by_cases hp : (nodeAsCacheData t).data.isPrimitive = true
      · by_cases hn : (nodeAsCacheData t).data = JVal.vNull
        · simp [hg, he, hp, hn, JVal.isPrimitive, cloneVal]
        · right
          simp [hg, he, hp, hn, trackAccess_data, trackAccess_options]
      · by_cases hn : (cloneVal fresh (nodeAsCacheData t).data).1 = JVal.vNull
        · simp [hg, he, hp, hn]
        · right
          simp [hg, he, hp, hn, trackAccess_data, trackAccess_options]

/-- `null` is falsy, so a truthy `get` result preserves data and options. -/
theorem memGet_truthy_preserves (now : ℤ) (fresh : Nat) (st : MemoryState)
    (key : String) (h : (memGet now fresh st key).1.truthy = true) :
    (memGet now fresh st key).2.data = st.data ∧
    (memGet now fresh st key).2.options = st.options := by
  rcases memGet_null_or_preserves now fresh st key with hnull | hpres
  · rw [hnull] at h
    simp [JVal.truthy] at h
  · exact hpres

/-! ## Claim theorems -/

/-- C1: the claim is right and `enforceMaxSize` is wrong.  With
`maxSize = 2`, after `set("a",1); set("b",2)` both entries are stored, but
the third insert `set("c",3)` evicts every entry — including the entries
within capacity and the just-inserted `"c"` — because the loop's size
snapshot is computed once and never decreases, so the loop drains the whole
access-order list instead of stopping at capacity. -/
theorem c1_enforceMaxSize_drains_store :
    getCacheSize c1afterAB = 2 ∧
    (memGet 0 0 c1afterAB "a").1 = JVal.vNum (JNum.fin 1) ∧
    (memGet 0 0 c1afterAB "b").1 = JVal.vNum (JNum.fin 2) ∧
    c1final.data = MChildren.cnil ∧
    c1final.accessOrder = [] ∧
    (memGet 0 0 c1final "b").1 = JVal.vNull ∧
    (memGet 0 0 c1final "c").1 = JVal.vNull := by decide

/-- C2: the claim is right and `remember`'s cache check is wrong.  With the
number `0` cached under `"k"`, `get` returns the non-null `0`, yet
`remember` invokes the producer (its `if (cachedValue)` test is a
truthiness test, not the repository's own `!== null` presence convention)
and overwrites the cached `0` with the produced value. -/
theorem c2_remember_reinvokes_producer_on_falsy_cached :
    (memGet 0 0 c2cachedZero "k").1 = JVal.vNum (JNum.fin 0) ∧
    (memGet 0 0 c2cachedZero "k").1 ≠ JVal.vNull ∧
    (memRemember 0 0 c2cachedZero [] "k" (JNum.fin 5)
        (JVal.vStr "produced")).producerInvoked = true ∧
    (memRemember 0 0 c2cachedZero [] "k" (JNum.fin 5)
        (JVal.vStr "produced")).result = JVal.vStr "produced" := by decide

/-- C9 counterexample: `disconnect` on the uninitialized manager succeeds
silently instead of failing with the not-initialized condition. -/
theorem c9_disconnect_does_not_error :
    mgrDisconnect mgrUninit = Except.ok () ∧
    mgrDisconnect mgrUninit ≠ Except.error CacheErr.notInitialized := by decide

/-- C9 (amended): every facade operation except `disconnect` fails with
`CacheDriverNotInitializedError` before a driver is active — `get`, `set`,
`remove`, `removeNamespace`, `flush`, `has`, `remember`, `pull`, `forever`,
`increment`, `decrement`, `many`, `setMany`, `parseKey` and `connect` —
while `disconnect` is a silent no-op. -/
theorem c9_uninitialized_facade_operations :
    (∀ now fresh key, mgrGet now fresh mgrUninit key =
      Except.error CacheErr.notInitialized) ∧
    (∀ now key v ttl, mgrSet now mgrUninit key v ttl =
      Except.error CacheErr.notInitialized) ∧
    (∀ key, mgrRemove mgrUninit key = Except.error CacheErr.notInitialized) ∧
    (∀ ns, mgrRemoveNamespace mgrUninit ns =
      Except.error CacheErr.notInitialized) ∧
    mgrFlush mgrUninit = Except.error CacheErr.notInitialized ∧
    (∀ now fresh key, mgrHas now fresh mgrUninit key =
      Except.error CacheErr.notInitialized) ∧
    (∀ now fresh key ttl pv, mgrRemember now fresh mgrUninit key ttl pv =
      Except.error CacheErr.notInitialized) ∧
    (∀ now fresh key, mgrPull now fresh mgrUninit key =
      Except.error CacheErr.notInitialized) ∧
    (∀ now key v, mgrForever now mgrUninit key v =
      Except.error CacheErr.notInitialized) ∧
    (∀ now fresh key d, mgrIncrement now fresh mgrUninit key d =
      Except.error CacheErr.notInitialized) ∧
    (∀ now fresh key d, mgrDecrement now fresh mgrUninit key d =
      Except.error CacheErr.notInitialized) ∧
    (∀ now fresh keys, mgrMany now fresh mgrUninit keys =
      Except.error CacheErr.notInitialized) ∧
    (∀ now items ttl, mgrSetMany now mgrUninit items ttl =
      Except.error CacheErr.notInitialized) ∧
    (∀ key, mgrParseKey mgrUninit key = Except.error CacheErr.notInitialized) ∧
    mgrConnect mgrUninit = Except.error CacheErr.notInitialized ∧
    mgrDisconnect mgrUninit = Except.ok () := by
  refine ⟨fun _ _ _ => rfl, fun _ _ _ _ => rfl, fun _ => rfl, fun _ => rfl,
    rfl, fun _ _ _ => rfl, fun _ _ _ _ _ => rfl, fun _ _ _ => rfl,
    fun _ _ _ => rfl, fun _ _ _ _ => rfl, fun _ _ _ _ => rfl,
    fun _ _ _ => rfl, fun _ _ _ => rfl, fun _ => rfl, rfl, rfl⟩

/-- C4 counterexample: with the empty string cached under `"k"`,
`increment("k")` does not fail — `(await get) || 0` coerces the falsy
string to `0` — it returns `1` and overwrites the entry. -/
theorem c4_increment_empty_string_no_error :
    (memGet 0 0 c4cachedEmptyStr "k").1 = JVal.vStr "" ∧
    (memIncrement 0 0 c4cachedEmptyStr "k" 1).1 = Except.ok (JNum.fin 1) ∧
    memStoredEntry (memIncrement 0 0 c4cachedEmptyStr "k" 1).2 "k" ≠
      memStoredEntry c4cachedEmptyStr "k" := by decide

/-- C5 counterexample: `forever("k", "v")` (infinite ttl) stores an entry
whose `expiresAt` is present (the value `Infinity`), refuting
"`expiresAtEpochMs` present iff `ttlSeconds` is finite and non-zero". -/
theorem c5_forever_stores_infinite_expiry :
    memStoredEntry c5foreverState "k" =
      some (CacheData.mk (JVal.vStr "v") (some JNum.inf) (some JNum.inf)) ∧
    (memStoredEntry c5foreverState "k").map CacheData.expiresAt ≠
      some none := by decide

/-- C8: LRU order at capacity 2.  `set("a",1); set("b",2); set("c",3)`
evicts `"a"` (its `get` reports null, `"b"`/`"c"` stay retrievable); with a
`get("a")` between the second and third `set`, `"b"` is evicted instead —
and in general an over-capacity insert of a fresh key drops exactly the
tail node, which is the least recently used key. -/
theorem List.map_fst_dropLast {α β : Type} (l : List (α × β)) :
    l.dropLast.map Prod.fst = (l.map Prod.fst).dropLast := by
  induction l with
  | nil => rfl
  | cons p rest ih =>
      cases rest with
      | nil => rfl
      | cons q rest2 => simp [List.dropLast_cons_of_ne_nil, ih]

theorem LruOptions.resolvedCapacity_pos (o : LruOptions) :
    0 < o.resolvedCapacity := by
  unfold LruOptions.resolvedCapacity
  rcases o.capacity with _ | n
  · simp
  · by_cases h : n = 0 <;> simp [h]
    omega

/-- C8: LRU order at capacity 2.  `set("a",1); set("b",2); set("c",3)`
evicts `"a"` — its `get` reports null while `"b"`/`"c"` stay retrievable;
with a `get("a")` between the second and third `set`, `"b"` is evicted
instead (a `get` counts as a use); and in general an over-capacity insert
of a fresh key drops exactly the tail node, the least recently used key. -/
theorem c8_lru_order :
    ((lruGet 0 0 c8evictA "a").1 = JVal.vNull ∧
     (lruGet 0 0 c8evictA "b").1 = JVal.vNum (JNum.fin 2) ∧
     (lruGet 0 0 c8evictA "c").1 = JVal.vNum (JNum.fin 3)) ∧
    ((lruGet 0 0 c8evictB "b").1 = JVal.vNull ∧
     (lruGet 0 0 c8evictB "a").1 = JVal.vNum (JNum.fin 1) ∧
     (lruGet 0 0 c8evictB "c").1 = JVal.vNum (JNum.fin 3)) ∧
    (∀ (now : ℤ) (st : LruState) (key : String) (v : JVal) (ttl : Option JNum),
      assocFind (parseCacheKey key st.options.globalPre) st.cache = none →
      st.cache.length = st.options.resolvedCapacity →
      (lruSet now st key v ttl).cache.map Prod.fst =
        parseCacheKey key st.options.globalPre ::
          (st.cache.map Prod.fst).dropLast) := by
  refine ⟨by decide, by decide, ?_⟩
  intro now st key v ttl hfresh hlen
  have hpos : 0 < st.options.resolvedCapacity := LruOptions.resolvedCapacity_pos _
  have hne : st.cache ≠ [] := by
    intro hnil
    rw [hnil] at hlen
    simp at hlen
    omega
  unfold lruSet
  simp only [hfresh, List.length_cons, hlen, gt_iff_lt, Nat.lt_succ_self,
    if_true, LruState.withCache]
  rw [List.dropLast_cons_of_ne_nil hne]
  simp [List.map_fst_dropLast]

theorem memRemove_options (st : MemoryState) (key : String) :
    (memRemove st key).options = st.options := rfl

/-- `get` never changes the driver options. -/
theorem memGet_options (now : ℤ) (fresh : Nat) (st : MemoryState)
    (key : String) : (memGet now fresh st key).2.options = st.options := by
  unfold memGet parseCachedData
  rcases hg : rootGet st.data (st.parseKey key) with _ | t
  · simp [hg]
  · by_cases he : (nodeAsCacheData t).expired now = true
    · simp [hg, he, memRemove_options]
    · by_cases hp : (nodeAsCacheData t).data.isPrimitive = true
      · by_cases hn : (nodeAsCacheData t).data = JVal.vNull
        · simp [hg, he, hp, hn, JVal.isPrimitive, cloneVal]
        · simp [hg, he, hp, hn, trackAccess_options]
      · by_cases hn : (cloneVal fresh (nodeAsCacheData t).data).1 = JVal.vNull
        · simp [hg, he, hp, hn]
        · simp [hg, he, hp, hn, trackAccess_options]

/-- `memStoredEntry` only reads the data store and the options. -/
theorem memStoredEntry_congr (a b : MemoryState) (hd : a.data = b.data)
    (ho : a.options = b.options) (key : String) :
    memStoredEntry a key = memStoredEntry b key := by
  unfold memStoredEntry MemoryState.parseKey
  rw [hd, ho]

/-- C10: an explicit call-site ttl of `0` is falsy, so
`set(key, value, 0)` stores the entry with no ttl and no expiry stamp,
registers nothing in the expiry sweep index, and the stored entry tests as
non-expired at every later time — a zero ttl behaves like an infinite ttl,
not like immediate expiry. -/
theorem c10_zero_ttl_never_expires (now : ℤ) (st : MemoryState) (key : String)
    (v : JVal) (hmax : st.options.maxSizeTruthy = false) :
    memStoredEntry (memSet now st key v (some (JNum.fin 0))) key =
      some (CacheData.mk v none none) ∧
    (memSet now st key v (some (JNum.fin 0))).temporaryData =
      st.temporaryData ∧
    (∀ n2 : ℤ, (CacheData.mk v none none).expired n2 = false) := by
  have hts : (resolveTtlMem st (some (JNum.fin 0))).truthy = false := by
    simp [resolveTtlMem, JNum.truthy]
  refine ⟨?_, memSet_temp_of_falsy_ttl now st key v _ hmax hts, ?_⟩
  · rw [memStoredEntry_memSet now st key v _ hmax]
    simp [prepareDataForStorage, hts]
  · intro n2
    simp [CacheData.expired]

/-- C10 witness: the theorem applied to `set("k", "v", 0)` on an empty
unbounded store. -/
theorem c10_zero_ttl_never_expires_witness :
    (memEmpty plainOpts).options.maxSizeTruthy = false ∧
    (memStoredEntry
        (memSet 0 (memEmpty plainOpts) "k" (JVal.vStr "v") (some (JNum.fin 0)))
        "k" = some (CacheData.mk (JVal.vStr "v") none none) ∧
      (memSet 0 (memEmpty plainOpts) "k" (JVal.vStr "v")
          (some (JNum.fin 0))).temporaryData =
        (memEmpty plainOpts).temporaryData ∧
      (∀ n2 : ℤ, (CacheData.mk (JVal.vStr "v") none none).expired n2 = false)) :=
  ⟨by decide,
    c10_zero_ttl_never_expires 0 (memEmpty plainOpts) "k" (JVal.vStr "v")
      (by decide)⟩

/-- C5 (amended): the stored entry's `expiresAt` is present iff the
resolved ttl is truthy — non-zero, finite **or infinite** — and with an
infinite resolved ttl the stored stamp is the value `Infinity`, which never
tests as expired (so "never treated as expired" holds, but the "present iff
finite" half of the claim does not). -/
theorem c5_expiry_presence_iff_truthy_ttl (now : ℤ) (st : MemoryState)
    (key : String) (v : JVal) (ttl : Option JNum)
    (hmax : st.options.maxSizeTruthy = false) :
    ∃ e, memStoredEntry (memSet now st key v ttl) key = some e ∧
      e.data = v ∧
      (e.expiresAt ≠ none ↔ (resolveTtlMem st ttl).truthy = true) ∧
      (resolveTtlMem st ttl = JNum.inf →
        e.expiresAt = some JNum.inf ∧ ∀ n2 : ℤ, e.expired n2 = false) := by
  have hst := memStoredEntry_memSet now st key v ttl hmax
  by_cases hts : (resolveTtlMem st ttl).truthy = true
  · refine ⟨_, hst, ?_, ?_, ?_⟩
    · simp [prepareDataForStorage, hts]
    · simp [prepareDataForStorage, hts, getExpiresAt]
    · intro hinf
      constructor
      · simp [prepareDataForStorage, hts, getExpiresAt, hinf, JNum.mul1000,
          JNum.add, JNum.truthy]
      · intro n2
        simp [prepareDataForStorage, hts, getExpiresAt, hinf, JNum.mul1000,
          JNum.add, CacheData.expired, JNum.truthy, JNum.lt]
  · refine ⟨_, hst, ?_, ?_, ?_⟩
    · simp [prepareDataForStorage, hts]
    · simp [prepareDataForStorage, hts]
    · intro hinf
      rw [hinf] at hts
      simp [JNum.truthy] at hts

/-- C5 witness: the theorem applied to `forever`'s call `set(k, v, Infinity)`
on an empty unbounded store. -/
theorem c5_expiry_presence_witness :
    (memEmpty plainOpts).options.maxSizeTruthy = false ∧
    (∃ e, memStoredEntry
        (memSet 0 (memEmpty plainOpts) "k" (JVal.vStr "v") (some JNum.inf))
        "k" = some e ∧
      e.data = JVal.vStr "v" ∧
      (e.expiresAt ≠ none ↔
        (resolveTtlMem (memEmpty plainOpts) (some JNum.inf)).truthy = true) ∧
      (resolveTtlMem (memEmpty plainOpts) (some JNum.inf) = JNum.inf →
        e.expiresAt = some JNum.inf ∧ ∀ n2 : ℤ, e.expired n2 = false)) :=
  ⟨by decide,
    c5_expiry_presence_iff_truthy_ttl 0 (memEmpty plainOpts) "k"
      (JVal.vStr "v") (some JNum.inf) (by decide)⟩

/-- A truthy non-numeric fetch makes `increment` throw without touching the
store beyond `get`'s own bookkeeping. -/
theorem memIncrement_error_eq (now : ℤ) (fresh : Nat) (st : MemoryState)
    (key : String) (d : ℤ)
    (ht : (memGet now fresh st key).1.truthy = true)
    (hn : (memGet now fresh st key).1.isNumber = false) :
    memIncrement now fresh st key d =
      (Except.error (CacheErr.incrementTypeMismatch (st.parseKey key)),
        (memGet now fresh st key).2) := by
  unfold memIncrement
  cases hv : (memGet now fresh st key).1 with
  | vNull =>
      rw [hv] at ht
      simp [JVal.truthy] at ht
  | vUndef =>
      rw [hv] at ht
      simp [JVal.truthy] at ht
  | vBool b =>
      rw [hv] at ht
      simp only [hv, ht, if_true]
  | vNum n =>
      rw [hv] at hn
      simp [JVal.isNumber] at hn
  | vStr s =>
      rw [hv] at ht
      simp only [hv, ht, if_true]
  | vObj a fs =>
      rw [hv] at ht
      simp only [hv, ht, if_true]
  | vArr a es =>
      rw [hv] at ht
      simp only [hv, ht, if_true]

/-- A falsy fetch is coerced to `0`, so `increment` persists `0 + delta`. -/
theorem memIncrement_falsy_eq (now : ℤ) (fresh : Nat) (st : MemoryState)
    (key : String) (d : ℤ)
    (ht : (memGet now fresh st key).1.truthy = false) :
    memIncrement now fresh st key d =
      (Except.ok (JNum.fin (0 + d)),
        memSet now (memGet now fresh st key).2 key
          (JVal.vNum (JNum.fin (0 + d))) none) := by
  unfold memIncrement
  simp only [ht, Bool.false_eq_true, if_false]
  rfl

/-- A truthy numeric fetch is incremented and persisted. -/
theorem memIncrement_num_eq (now : ℤ) (fresh : Nat) (st : MemoryState)
    (key : String) (d : ℤ) (n : JNum)
    (hv : (memGet now fresh st key).1 = JVal.vNum n) (hnt : n.truthy = true) :
    memIncrement now fresh st key d =
      (Except.ok (JNum.add n (JNum.fin d)),
        memSet now (memGet now fresh st key).2 key
          (JVal.vNum (JNum.add n (JNum.fin d))) none) := by
  unfold memIncrement
  simp only [hv]
  simp [JVal.truthy, hnt]

/-- C4 (amended): `increment` fails — with a generic `Error`, no dedicated
`TypeMismatchError` class exists — exactly when the fetched value is truthy
and not a number, and the stored entry is then unchanged; a falsy fetched
value (absent key, but equally a cached `0`, empty string or `false`) is
coerced to `0` before the type check, so `increment` then returns and
persists `0 + delta` without failing; a truthy numeric value is incremented
and persisted; `decrement(key, delta)` is `increment(key, -delta)`. -/
theorem c4_increment_semantics (now : ℤ) (fresh : Nat) (st : MemoryState)
    (key : String) (d : ℤ) (hmax : st.options.maxSizeTruthy = false) :
    (((memGet now fresh st key).1.truthy = true ∧
      (memGet now fresh st key).1.isNumber = false) →
        (memIncrement now fresh st key d).1 =
          Except.error (CacheErr.incrementTypeMismatch (st.parseKey key)) ∧
        memStoredEntry (memIncrement now fresh st key d).2 key =
          memStoredEntry st key) ∧
    ((memGet now fresh st key).1.truthy = false →
        (memIncrement now fresh st key d).1 = Except.ok (JNum.fin (0 + d)) ∧
        (∃ e, memStoredEntry (memIncrement now fresh st key d).2 key = some e ∧
          e.data = JVal.vNum (JNum.fin (0 + d)))) ∧
    (∀ n : JNum, (memGet now fresh st key).1 = JVal.vNum n → n.truthy = true →
        (memIncrement now fresh st key d).1 =
          Except.ok (JNum.add n (JNum.fin d)) ∧
        (∃ e, memStoredEntry (memIncrement now fresh st key d).2 key = some e ∧
          e.data = JVal.vNum (JNum.add n (JNum.fin d)))) ∧
    memDecrement now fresh st key d = memIncrement now fresh st key (-d) := by
  have hopt := memGet_options now fresh st key
  have hmax2 : (memGet now fresh st key).2.options.maxSizeTruthy = false := by
    rw [hopt]
    exact hmax
  refine ⟨?_, ?_, ?_, rfl⟩
  · rintro ⟨ht, hn⟩
    have hpres := memGet_truthy_preserves now fresh st key ht
    have heq := memIncrement_error_eq now fresh st key d ht hn
    rw [heq]
    exact ⟨rfl, memStoredEntry_congr _ _ hpres.1 hpres.2 key⟩
  · intro ht
    have heq := memIncrement_falsy_eq now fresh st key d ht
    rw [heq]
    refine ⟨rfl, _, memStoredEntry_memSet now _ key _ none hmax2, ?_⟩
    simp [prepareDataForStorage]
    split <;> rfl
  · intro n hv hnt
    have heq := memIncrement_num_eq now fresh st key d n hv hnt
    rw [heq]
    refine ⟨rfl, _, memStoredEntry_memSet now _ key _ none hmax2, ?_⟩
    simp [prepareDataForStorage]
    split <;> rfl

/-- C4 witness: the theorem applied to a cached `"text"` — `increment`
fails and leaves the entry unchanged. -/
theorem c4_increment_semantics_witness :
    ((memGet 0 0 c4cachedText "k").1.truthy = true ∧
      (memGet 0 0 c4cachedText "k").1.isNumber = false) ∧
    c4cachedText.options.maxSizeTruthy = false ∧
    ((memIncrement 0 0 c4cachedText "k" 1).1 =
      Except.error (CacheErr.incrementTypeMismatch (c4cachedText.parseKey "k")) ∧
     memStoredEntry (memIncrement 0 0 c4cachedText "k" 1).2 "k" =
      memStoredEntry c4cachedText "k") :=
  ⟨by decide, by decide,
    (c4_increment_semantics 0 0 c4cachedText "k" 1 (by decide)).1 (by decide)⟩

/-- C8 witness: the general eviction clause applied to the concrete
capacity-2 state after `set("a",1); set("b",2)`. -/
theorem c8_lru_order_witness :
    (assocFind (parseCacheKey "c" c8afterAB.options.globalPre) c8afterAB.cache =
        none ∧
      c8afterAB.cache.length = c8afterAB.options.resolvedCapacity) ∧
    (lruSet 0 c8afterAB "c" (JVal.vNum (JNum.fin 3)) none).cache.map Prod.fst =
      parseCacheKey "c" c8afterAB.options.globalPre ::
        (c8afterAB.cache.map Prod.fst).dropLast :=
  ⟨⟨by decide, by decide⟩,
    c8_lru_order.2.2 0 c8afterAB "c" (JVal.vNum (JNum.fin 3)) none
      (by decide) (by decide)⟩

/-! ## Clone lemmas for the defensive-copy claim -/

mutual

theorem cloneVal_counter_le : (c : Nat) → (v : JVal) → c ≤ (cloneVal c v).2
  | c, JVal.vObj a fs => by
      have h := cloneFields_counter_le (c + 1) fs
      simp only [cloneVal]
      omega
  | c, JVal.vArr a es => by
      have h := cloneList_counter_le (c + 1) es
      simp only [cloneVal]
      omega
  | c, JVal.vNull => Nat.le_refl c
  | c, JVal.vUndef => Nat.le_refl c
  | c, JVal.vBool b => Nat.le_refl c
  | c, JVal.vNum n => Nat.le_refl c
  | c, JVal.vStr s => Nat.le_refl c

theorem cloneFields_counter_le : (c : Nat) → (fs : JFields) →
    c ≤ (cloneFields c fs).2
  | c, JFields.fnil => Nat.le_refl c
  | c, JFields.fcons k v rest => by
      have h1 := cloneVal_counter_le c v
      have h2 := cloneFields_counter_le (cloneVal c v).2 rest
      simp only [cloneFields]
      omega

theorem cloneList_counter_le : (c : Nat) → (es : JList) →
    c ≤ (cloneList c es).2
  | c, JList.lnil => Nat.le_refl c
  | c, JList.lcons v rest => by
      have h1 := cloneVal_counter_le c v
      have h2 := cloneList_counter_le (cloneVal c v).2 rest
      simp only [cloneList]
      omega

end

mutual

theorem stripVal_cloneVal : (c : Nat) → (v : JVal) →
    stripVal (cloneVal c v).1 = stripVal v
  | c, JVal.vObj a fs => by
      simp [cloneVal, stripVal, stripFields_cloneFields (c + 1) fs]
  | c, JVal.vArr a es => by
      simp [cloneVal, stripVal, stripList_cloneList (c + 1) es]
  | _, JVal.vNull => rfl
  | _, JVal.vUndef => rfl
  | _, JVal.vBool _ => rfl
  | _, JVal.vNum _ => rfl
  | _, JVal.vStr _ => rfl

theorem stripFields_cloneFields : (c : Nat) → (fs : JFields) →
    stripFields (cloneFields c fs).1 = stripFields fs
  | _, JFields.fnil => rfl
  | c, JFields.fcons k v rest => by
      simp [cloneFields, stripFields, stripVal_cloneVal c v,
        stripFields_cloneFields (cloneVal c v).2 rest]

theorem stripList_cloneList : (c : Nat) → (es : JList) →
    stripList (cloneList c es).1 = stripList es
  | _, JList.lnil => rfl
  | c, JList.lcons v rest => by
      simp [cloneList, stripList, stripVal_cloneVal c v,
        stripList_cloneList (cloneVal c v).2 rest]

end

mutual

theorem cloneVal_addrs_ge : (c : Nat) → (v : JVal) →
    ∀ a ∈ addrsVal (cloneVal c v).1, c ≤ a
  | c, JVal.vObj b fs => by
      intro a ha
      simp only [cloneVal, addrsVal, List.mem_cons] at ha
      rcases ha with rfl | ha
      · exact Nat.le_refl a
      · have := cloneFields_addrs_ge (c + 1) fs a ha
        omega
  | c, JVal.vArr b es => by
      intro a ha
      simp only [cloneVal, addrsVal, List.mem_cons] at ha
      rcases ha with rfl | ha
      · exact Nat.le_refl a
      · have := cloneList_addrs_ge (c + 1) es a ha
        omega
  | _, JVal.vNull => by intro a ha; simp [cloneVal, addrsVal] at ha
  | _, JVal.vUndef => by intro a ha; simp [cloneVal, addrsVal] at ha
  | _, JVal.vBool _ => by intro a ha; simp [cloneVal, addrsVal] at ha
  | _, JVal.vNum _ => by intro a ha; simp [cloneVal, addrsVal] at ha
  | _, JVal.vStr _ => by intro a ha; simp [cloneVal, addrsVal] at ha

theorem cloneFields_addrs_ge : (c : Nat) → (fs : JFields) →
    ∀ a ∈ addrsFields (cloneFields c fs).1, c ≤ a
  | _, JFields.fnil => by intro a ha; simp [cloneFields, addrsFields] at ha
  | c, JFields.fcons k v rest => by
      intro a ha
      simp only [cloneFields, addrsFields, List.mem_append] at ha
      rcases ha with ha | ha
      · exact cloneVal_addrs_ge c v a ha
      · have h1 := cloneVal_counter_le c v
        have h2 := cloneFields_addrs_ge (cloneVal c v).2 rest a ha
        omega

theorem cloneList_addrs_ge : (c : Nat) → (es : JList) →
    ∀ a ∈ addrsList (cloneList c es).1, c ≤ a
  | _, JList.lnil => by intro a ha; simp [cloneList, addrsList] at ha
  | c, JList.lcons v rest => by
      intro a ha
      simp only [cloneList, addrsList, List.mem_append] at ha
      rcases ha with ha | ha
      · exact cloneVal_addrs_ge c v a ha
      · have h1 := cloneVal_counter_le c v
        have h2 := cloneList_addrs_ge (cloneVal c v).2 rest a ha
        omega

end

mutual

theorem mutObjVal_not_mem : (a : Nat) → (nf : JFields) → (v : JVal) →
    a ∉ addrsVal v → mutObjVal a nf v = v
  | a, nf, JVal.vObj b fs => by
      intro h
      simp only [addrsVal, List.mem_cons, not_or] at h
      have hb : ¬(b = a) := fun hh => h.1 hh.symm
      simp [mutObjVal, hb, mutObjFields_not_mem a nf fs h.2]
  | a, nf, JVal.vArr b es => by
      intro h
      simp only [addrsVal, List.mem_cons, not_or] at h
      simp [mutObjVal, mutObjList_not_mem a nf es h.2]
  | _, _, JVal.vNull => fun _ => rfl
  | _, _, JVal.vUndef => fun _ => rfl
  | _, _, JVal.vBool _ => fun _ => rfl
  | _, _, JVal.vNum _ => fun _ => rfl
  | _, _, JVal.vStr _ => fun _ => rfl

theorem mutObjFields_not_mem : (a : Nat) → (nf : JFields) → (fs : JFields) →
    a ∉ addrsFields fs → mutObjFields a nf fs = fs
  | _, _, JFields.fnil => fun _ => rfl
  | a, nf, JFields.fcons k v rest => by
      intro h
      simp only [addrsFields, List.mem_append, not_or] at h
      simp [mutObjFields, mutObjVal_not_mem a nf v h.1,
        mutObjFields_not_mem a nf rest h.2]

theorem mutObjList_not_mem : (a : Nat) → (nf : JFields) → (es : JList) →
    a ∉ addrsList es → mutObjList a nf es = es
  | _, _, JList.lnil => fun _ => rfl
  | a, nf, JList.lcons v rest => by
      intro h
      simp only [addrsList, List.mem_append, not_or] at h
      simp [mutObjList, mutObjVal_not_mem a nf v h.1,
        mutObjList_not_mem a nf rest h.2]

end

mutual

theorem mutArrVal_not_mem : (a : Nat) → (ne : JList) → (v : JVal) →
    a ∉ addrsVal v → mutArrVal a ne v = v
  | a, ne, JVal.vArr b es => by
      intro h
      simp only [addrsVal, List.mem_cons, not_or] at h
      have hb : ¬(b = a) := fun hh => h.1 hh.symm
      simp [mutArrVal, hb, mutArrList_not_mem a ne es h.2]
  | a, ne, JVal.vObj b fs => by
      intro h
      simp only [addrsVal, List.mem_cons, not_or] at h
      simp [mutArrVal, mutArrFields_not_mem a ne fs h.2]
  | _, _, JVal.vNull => fun _ => rfl
  | _, _, JVal.vUndef => fun _ => rfl
  | _, _, JVal.vBool _ => fun _ => rfl
  | _, _, JVal.vNum _ => fun _ => rfl
  | _, _, JVal.vStr _ => fun _ => rfl

theorem mutArrFields_not_mem : (a : Nat) → (ne : JList) → (fs : JFields) →
    a ∉ addrsFields fs → mutArrFields a ne fs = fs
  | _, _, JFields.fnil => fun _ => rfl
  | a, ne, JFields.fcons k v rest => by
      intro h
      simp only [addrsFields, List.mem_append, not_or] at h
      simp [mutArrFields, mutArrVal_not_mem a ne v h.1,
        mutArrFields_not_mem a ne rest h.2]

theorem mutArrList_not_mem : (a : Nat) → (ne : JList) → (es : JList) →
    a ∉ addrsList es → mutArrList a ne es = es
  | _, _, JList.lnil => fun _ => rfl
  | a, ne, JList.lcons v rest => by
      intro h
      simp only [addrsList, List.mem_append, not_or] at h
      simp [mutArrList, mutArrVal_not_mem a ne v h.1,
        mutArrList_not_mem a ne rest h.2]

end

theorem cloneVal_rootAddr (c : Nat) (v : JVal) (h : v.isPrimitive = false) :
    (cloneVal c v).1.rootAddr = some c := by
  cases v <;> simp [JVal.isPrimitive] at h <;> simp [cloneVal, JVal.rootAddr]

theorem rootAddr_mem_addrs (v : JVal) (r : Nat) (h : v.rootAddr = some r) :
    r ∈ addrsVal v := by
  cases v <;> simp [JVal.rootAddr] at h <;> simp [addrsVal, h]

theorem prepareDataForStorage_data (now : ℤ) (v : JVal) (t : Option JNum) :
    (prepareDataForStorage now v t).data = v := by
  unfold prepareDataForStorage
  rcases t with _ | t
  · rfl
  · by_cases ht : t.truthy = true <;> simp [ht]

theorem enforceMaxSize_options (st : MemoryState) :
    (enforceMaxSize st).options = st.options := by
  unfold enforceMaxSize
  split
  · split <;> rfl
  · rfl

theorem memSet_options (now : ℤ) (st : MemoryState) (key : String) (v : JVal)
    (ttl : Option JNum) : (memSet now st key v ttl).options = st.options := by
  simp only [memSet]
  split <;> split <;>
    simp [enforceMaxSize_options, trackAccess_options, MemoryState.withData,
      setTemporaryData, MemoryState.withTemp]

theorem rootGet_of_storedEntry (st : MemoryState) (key : String)
    (e : CacheData) (h : memStoredEntry st key = some e) :
    rootGet st.data (st.parseKey key) = some (MTree.leaf e) := by
  unfold memStoredEntry at h
  rcases hg : rootGet st.data (st.parseKey key) with _ | t
  · rw [hg] at h
    cases h
  · rw [hg] at h
    cases t with
    | leaf e2 =>
        simp only [Option.some.injEq] at h
        rw [h]
    | node ch => simp at h

theorem cloneVal_ne_null (c : Nat) (v : JVal) (h : v.isPrimitive = false) :
    (cloneVal c v).1 ≠ JVal.vNull := by
  cases v <;> simp [JVal.isPrimitive] at h <;> simp [cloneVal]

/-- The value reported by `get` right after `set` (unexpired): the stored
value itself for primitives, its `structuredClone` for composites. -/
theorem memGet_after_memSet (now n2 : ℤ) (fresh : Nat) (st : MemoryState)
    (key : String) (v : JVal) (ttl : Option JNum)
    (hmax : st.options.maxSizeTruthy = false)
    (hexp : (prepareDataForStorage now v
        (some (resolveTtlMem st ttl))).expired n2 = false) :
    (memGet n2 fresh (memSet now st key v ttl) key).1 =
      if v.isPrimitive = true then v else (cloneVal fresh v).1 := by
  have hse := memStoredEntry_memSet now st key v ttl hmax
  have hroot := rootGet_of_storedEntry _ key _ hse
  have hdata := prepareDataForStorage_data now v (some (resolveTtlMem st ttl))
  simp only [memGet, parseCachedData, hroot, nodeAsCacheData, hexp,
    Bool.false_eq_true, if_false, hdata]
  by_cases hp : v.isPrimitive = true
  · by_cases hn : v = JVal.vNull
    · subst hn
      simp [JVal.isPrimitive]
    · simp [hp, hn]
  · have hnn := cloneVal_ne_null fresh v (by simpa using hp)
    simp [hp, hnn]

/-- C7: `set(k, v)` then `get(k)` before expiry returns `v` itself for
primitive `v`; for composite `v` it returns a value that is deep-equal to
`v` (equal after forgetting allocation addresses) with a fresh root address
different from `v`'s, sharing no allocation address with the stored value —
hence mutating any object or array reachable from the returned value leaves
the stored value untouched. -/
theorem c7_get_returns_isolated_copy (now n2 : ℤ) (fresh : Nat)
    (st : MemoryState) (key : String) (v : JVal) (ttl : Option JNum)
    (hmax : st.options.maxSizeTruthy = false)
    (hwf : ∀ a ∈ addrsVal v, a < fresh)
    (hexp : (prepareDataForStorage now v
        (some (resolveTtlMem st ttl))).expired n2 = false) :
    (v.isPrimitive = true →
      (memGet n2 fresh (memSet now st key v ttl) key).1 = v) ∧
    (v.isPrimitive = false →
      stripVal (memGet n2 fresh (memSet now st key v ttl) key).1 = stripVal v ∧
      (memGet n2 fresh (memSet now st key v ttl) key).1.rootAddr = some fresh ∧
      (memGet n2 fresh (memSet now st key v ttl) key).1.rootAddr ≠
        v.rootAddr ∧
      (∀ a ∈ addrsVal (memGet n2 fresh (memSet now st key v ttl) key).1,
        a ∉ addrsVal v) ∧
      (∀ a ∈ addrsVal (memGet n2 fresh (memSet now st key v ttl) key).1,
        ∀ nf, mutObjVal a nf v = v) ∧
      (∀ a ∈ addrsVal (memGet n2 fresh (memSet now st key v ttl) key).1,
        ∀ ne, mutArrVal a ne v = v)) := by
  have hr := memGet_after_memSet now n2 fresh st key v ttl hmax hexp
  constructor
  · intro hp
    rw [hr, if_pos hp]
  · intro hp
    rw [hr, if_neg (by simp [hp])]
    have hnotin : ∀ a ∈ addrsVal (cloneVal fresh v).1, a ∉ addrsVal v := by
      intro a ha hav
      have h1 := cloneVal_addrs_ge fresh v a ha
      have h2 := hwf a hav
      omega
    refine ⟨stripVal_cloneVal fresh v, cloneVal_rootAddr fresh v hp, ?_, hnotin,
      ?_, ?_⟩
    · rw [cloneVal_rootAddr fresh v hp]
      rcases hra : v.rootAddr with _ | r
      · simp
      · have hmem := rootAddr_mem_addrs v r hra
        have hlt := hwf r hmem
        intro hcontra
        rw [Option.some.injEq] at hcontra
        omega
    · intro a ha nf
      exact mutObjVal_not_mem a nf v (hnotin a ha)
    · intro a ha ne
      exact mutArrVal_not_mem a ne v (hnotin a ha)

/-- C7 witness: a one-field object stored and fetched on an empty plain
store with clone addresses allocated from 10. -/
theorem c7_get_returns_isolated_copy_witness :
    ((memEmpty plainOpts).options.maxSizeTruthy = false ∧
      (∀ a ∈ addrsVal sampleObj, a < 10) ∧
      (prepareDataForStorage 0 sampleObj
        (some (resolveTtlMem (memEmpty plainOpts) none))).expired 0 = false) ∧
    (sampleObj.isPrimitive = false →
      stripVal (memGet 0 10 (memSet 0 (memEmpty plainOpts) "k" sampleObj none)
          "k").1 = stripVal sampleObj ∧
      (memGet 0 10 (memSet 0 (memEmpty plainOpts) "k" sampleObj none)
          "k").1.rootAddr = some 10 ∧
      (memGet 0 10 (memSet 0 (memEmpty plainOpts) "k" sampleObj none)
          "k").1.rootAddr ≠ sampleObj.rootAddr ∧
      (∀ a ∈ addrsVal (memGet 0 10 (memSet 0 (memEmpty plainOpts) "k"
          sampleObj none) "k").1, a ∉ addrsVal sampleObj) ∧
      (∀ a ∈ addrsVal (memGet 0 10 (memSet 0 (memEmpty plainOpts) "k"
          sampleObj none) "k").1, ∀ nf, mutObjVal a nf sampleObj = sampleObj) ∧
      (∀ a ∈ addrsVal (memGet 0 10 (memSet 0 (memEmpty plainOpts) "k"
          sampleObj none) "k").1, ∀ ne, mutArrVal a ne sampleObj = sampleObj)) :=
  ⟨⟨by decide, by decide, by decide⟩,
    (c7_get_returns_isolated_copy 0 0 10 (memEmpty plainOpts) "k" sampleObj
      none (by decide) (by decide) (by decide)).2⟩

/-! ## Path lemmas for the tag decorator -/

theorem rootUnset_flat (ch : MChildren) (k2 : String)
    (hsegs : keySegs k2 = [k2]) : rootUnset ch k2 = MChildren.erase k2 ch := by
  unfold rootUnset
  rw [hsegs]
  rfl

theorem rootGet_flat (ch : MChildren) (k : String) (hsegs : keySegs k = [k]) :
    rootGet ch k = MChildren.find k ch := by
  unfold rootGet
  rw [hsegs]
  rcases h : MChildren.find k ch with _ | t <;> simp [MTree.getPath, h]

theorem find_rootUnset_deep (ch : MChildren) (k a b c tk : String)
    (hsegs : keySegs tk = [a, b, c]) (hk : k ≠ a) :
    MChildren.find k (rootUnset ch tk) = MChildren.find k ch := by
  unfold rootUnset
  rw [hsegs]
  rcases h : MChildren.find a ch with _ | u
  · simp [MTree.unsetPath, h]
  · simp [MTree.unsetPath, h, MChildren.find_insert_ne k a _ hk]

theorem rootGet_rootUnset_deep_self (ch : MChildren) (a b c tk tk2 : String)
    (hsegs : keySegs tk = [a, b, c]) (hsegs2 : keySegs tk2 = [a, b, c]) :
    rootGet (rootUnset ch tk2) tk = none := by
  unfold rootGet rootUnset
  rw [hsegs, hsegs2]
  rcases h1 : MChildren.find a ch with _ | u
  · simp [MTree.unsetPath, MTree.getPath, h1]
  · cases u with
    | leaf e =>
        simp [MTree.unsetPath, MTree.getPath, h1, MChildren.find_insert]
    | node ch2 =>
        rcases h2 : MChildren.find b ch2 with _ | u2
        · simp [MTree.unsetPath, MTree.getPath, h1, h2, MChildren.find_insert]
        · cases u2 with
          | leaf e2 =>
              simp [MTree.unsetPath, MTree.getPath, h1, h2,
                MChildren.find_insert]
          | node ch3 =>
              simp [MTree.unsetPath, MTree.getPath, h1, h2,
                MChildren.find_insert, MChildren.find_erase_self]

theorem rootGet_rootUnset_deep_other (ch : MChildren) (a b c c2 tk tk2 : String)
    (hsegs : keySegs tk = [a, b, c]) (hsegs2 : keySegs tk2 = [a, b, c2])
    (hne : c ≠ c2) :
    rootGet (rootUnset ch tk2) tk = rootGet ch tk := by
  unfold rootGet rootUnset
  rw [hsegs, hsegs2]
  rcases h1 : MChildren.find a ch with _ | u
  · simp [MTree.unsetPath, MTree.getPath, h1]
  · cases u with
    | leaf e =>
        simp [MTree.unsetPath, MTree.getPath, h1, MChildren.find_insert]
    | node ch2 =>
        rcases h2 : MChildren.find b ch2 with _ | u2
        · simp [MTree.unsetPath, MTree.getPath, h1, h2, MChildren.find_insert]
        · cases u2 with
          | leaf e2 =>
              simp [MTree.unsetPath, MTree.getPath, h1, h2,
                MChildren.find_insert]
          | node ch3 =>
              simp [MTree.unsetPath, MTree.getPath, h1, h2,
                MChildren.find_insert, MChildren.find_erase_ne c c2 hne]

theorem rootGet_rootUnset_deep_none (ch : MChildren) (a b c c2 tk tk2 : String)
    (hsegs : keySegs tk = [a, b, c]) (hsegs2 : keySegs tk2 = [a, b, c2])
    (hnone : rootGet ch tk = none) :
    rootGet (rootUnset ch tk2) tk = none := by
  by_cases hc : c = c2
  · subst hc
    exact rootGet_rootUnset_deep_self ch a b c tk tk2 hsegs hsegs2
  · rw [rootGet_rootUnset_deep_other ch a b c c2 tk tk2 hsegs hsegs2 hc]
    exact hnone

theorem memRemove_data (s : MemoryState) (k : String) :
    (memRemove s k).data = rootUnset s.data (s.parseKey k) := rfl

/-- A `get` either leaves the data store unchanged or (on an expired hit)
unsets the doubly-parsed key. -/
theorem memGet_data_cases (now : ℤ) (fresh : Nat) (s : MemoryState)
    (key : String) :
    (memGet now fresh s key).2.data = s.data ∨
    (memGet now fresh s key).2.data =
      rootUnset s.data (s.parseKey (s.parseKey key)) := by
  unfold memGet parseCachedData
  rcases hg : rootGet s.data (s.parseKey key) with _ | t
  · left
    simp [hg]
  · by_cases he : (nodeAsCacheData t).expired now = true
    · right
      simp [hg, he, memRemove_data]
    · left
      by_cases hp : (nodeAsCacheData t).data.isPrimitive = true
      · by_cases hn : (nodeAsCacheData t).data = JVal.vNull
        · simp [hg, he, hp, hn, JVal.isPrimitive, cloneVal]
        · simp [hg, he, hp, hn, trackAccess_data]
      · by_cases hn : (cloneVal fresh (nodeAsCacheData t).data).1 = JVal.vNull
        · simp [hg, he, hp, hn]
        · simp [hg, he, hp, hn, trackAccess_data]

theorem flatPlainKey_parse (k : String) (h : flatPlainKey k = true) :
    parseCacheKey k none = k := by
  simp only [flatPlainKey, Bool.and_eq_true, decide_eq_true_eq] at h
  exact h.1.1

theorem flatPlainKey_segs (k : String) (h : flatPlainKey k = true) :
    keySegs k = [k] := by
  simp only [flatPlainKey, Bool.and_eq_true, decide_eq_true_eq] at h
  exact h.1.2

theorem flatPlainKey_ne_cache (k : String) (h : flatPlainKey k = true) :
    k ≠ "cache" := by
  simp only [flatPlainKey, Bool.and_eq_true, decide_eq_true_eq] at h
  exact h.2

theorem tagPathOk_parse1 (t : String) (h : tagPathOk t = true) :
    parseCacheKey (tagKeyOf t) none = "cache.tags." ++ t := by
  simp only [tagPathOk, Bool.and_eq_true, decide_eq_true_eq] at h
  exact h.1.1

theorem tagPathOk_segs (t : String) (h : tagPathOk t = true) :
    keySegs ("cache.tags." ++ t) = ["cache", "tags", t] := by
  simp only [tagPathOk, Bool.and_eq_true, decide_eq_true_eq] at h
  exact h.1.2

theorem tagPathOk_parse2 (t : String) (h : tagPathOk t = true) :
    parseCacheKey ("cache.tags." ++ t) none = "cache.tags." ++ t := by
  simp only [tagPathOk, Bool.and_eq_true, decide_eq_true_eq] at h
  exact h.2

theorem memGet_of_rootGet_none (n2 : ℤ) (fr2 : Nat) (s : MemoryState)
    (key : String) (h : rootGet s.data (s.parseKey key) = none) :
    (memGet n2 fr2 s key).1 = JVal.vNull := by
  unfold memGet
  simp [h]

theorem memStoredEntry_of_rootGet_none (s : MemoryState) (key : String)
    (h : rootGet s.data (s.parseKey key) = none) :
    memStoredEntry s key = none := by
  unfold memStoredEntry
  simp [h]

/-- The read phase of `invalidate` (`getTaggedKeys`) preserves the options
and the top-level binding of every flat plain key: its only possible store
mutation is the proactive removal of an expired tag-index entry, which
lives under the reserved `cache` namespace. -/
theorem getTaggedKeysAux_state (now : ℤ) (fresh : Nat) :
    (T : List String) → (seen : List String) → (s : MemoryState) →
    (∀ t ∈ T, tagPathOk t = true) → s.options.globalPre = none →
    ((getTaggedKeysAux now fresh T seen s).2.options = s.options ∧
      ∀ k, flatPlainKey k = true →
        MChildren.find k (getTaggedKeysAux now fresh T seen s).2.data =
          MChildren.find k s.data)
  | [], seen, s => by
      intro _ _
      exact ⟨rfl, fun k _ => rfl⟩
  | tag :: rest, seen, s => by
      intro hall hopt
      have htag := hall tag (List.mem_cons_self tag rest)
      have hoptg := memGet_options now fresh s (tagKeyOf tag)
      have hopt2 : (memGet now fresh s (tagKeyOf tag)).2.options.globalPre =
          none := by
        rw [hoptg]
        exact hopt
      have hrec := getTaggedKeysAux_state now fresh rest
        (addKeysToSet (fetchedKeys (memGet now fresh s (tagKeyOf tag)).1) seen)
        (memGet now fresh s (tagKeyOf tag)).2
        (fun t ht => hall t (List.mem_cons_of_mem tag ht)) hopt2
      have hunf : getTaggedKeysAux now fresh (tag :: rest) seen s =
          getTaggedKeysAux now fresh rest
            (addKeysToSet (fetchedKeys (memGet now fresh s (tagKeyOf tag)).1)
              seen)
            (memGet now fresh s (tagKeyOf tag)).2 := rfl
      constructor
      · rw [hunf, hrec.1, hoptg]
      · intro k hk
        rw [hunf, hrec.2 k hk]
        rcases memGet_data_cases now fresh s (tagKeyOf tag) with hsame | hunset
        · rw [hsame]
        · rw [hunset]
          have e1 : s.parseKey (tagKeyOf tag) = "cache.tags." ++ tag := by
            unfold MemoryState.parseKey
            rw [hopt]
            exact tagPathOk_parse1 tag htag
          have e2 : s.parseKey (s.parseKey (tagKeyOf tag)) =
              "cache.tags." ++ tag := by
            rw [e1]
            unfold MemoryState.parseKey
            rw [hopt]
            exact tagPathOk_parse2 tag htag
          rw [e2]
          exact find_rootUnset_deep s.data k "cache" "tags" tag _
            (tagPathOk_segs tag htag) (flatPlainKey_ne_cache k hk)

/-- The union-removal phase of `invalidate`: removing a list of flat plain
keys clears exactly those top-level bindings. -/
theorem foldRemove_flat_state :
    (L : List String) → (s : MemoryState) →
    (∀ k2 ∈ L, flatPlainKey k2 = true) → s.options.globalPre = none →
    ((L.foldl (fun s2 k => memRemove s2 k) s).options = s.options ∧
      (∀ k, flatPlainKey k = true → k ∉ L →
        MChildren.find k (L.foldl (fun s2 k => memRemove s2 k) s).data =
          MChildren.find k s.data) ∧
      (∀ k ∈ L,
        MChildren.find k (L.foldl (fun s2 k => memRemove s2 k) s).data = none))
  | [], s => by
      intro _ _
      exact ⟨rfl, fun k _ _ => rfl, fun k hk => absurd hk (List.not_mem_nil k)⟩
  | k1 :: rest, s => by
      intro hall hopt
      have hk1 := hall k1 (List.mem_cons_self k1 rest)
      have e1 : (memRemove s k1).data = MChildren.erase k1 s.data := by
        rw [memRemove_data]
        have hp : s.parseKey k1 = k1 := by
          unfold MemoryState.parseKey
          rw [hopt]
          exact flatPlainKey_parse k1 hk1
        rw [hp, rootUnset_flat s.data k1 (flatPlainKey_segs k1 hk1)]
      have hopt1 : (memRemove s k1).options.globalPre = none := by
        rw [memRemove_options]
        exact hopt
      have hrec := foldRemove_flat_state rest (memRemove s k1)
        (fun k2 hk2 => hall k2 (List.mem_cons_of_mem k1 hk2)) hopt1
      have hunf : (k1 :: rest).foldl (fun s2 k => memRemove s2 k) s =
          rest.foldl (fun s2 k => memRemove s2 k) (memRemove s k1) := rfl
      refine ⟨?_, ?_, ?_⟩
      · rw [hunf, hrec.1, memRemove_options]
      · intro k hk hnot
        have hne : k ≠ k1 := fun hh => hnot (by simp [hh])
        rw [hunf, hrec.2.1 k hk (fun hm => hnot (List.mem_cons_of_mem k1 hm)),
          e1, MChildren.find_erase_ne k k1 hne]
      · intro k hkmem
        rcases List.mem_cons.mp hkmem with hkeq | hkrest
        · subst hkeq
          by_cases hmem : k ∈ rest
          · rw [hunf]
            exact hrec.2.2 k hmem
          · rw [hunf, hrec.2.1 k hk1 hmem, e1, MChildren.find_erase_self]
        · rw [hunf]
          exact hrec.2.2 k hkrest

/-- The tag-entry removal phase of `invalidate`: it clears every bound
tag's index entry, preserves every flat plain key, and preserves the
absence of any tag-index entry. -/
theorem foldRemove_tags_state :
    (T : List String) → (s : MemoryState) →
    (∀ t ∈ T, tagPathOk t = true) → s.options.globalPre = none →
    ((T.foldl (fun s2 t => memRemove s2 (tagKeyOf t)) s).options = s.options ∧
      (∀ k, flatPlainKey k = true →
        MChildren.find k
            (T.foldl (fun s2 t => memRemove s2 (tagKeyOf t)) s).data =
          MChildren.find k s.data) ∧
      (∀ t ∈ T,
        rootGet (T.foldl (fun s2 t => memRemove s2 (tagKeyOf t)) s).data
          ("cache.tags." ++ t) = none) ∧
      (∀ c : String, tagPathOk c = true →
        rootGet s.data ("cache.tags." ++ c) = none →
        rootGet (T.foldl (fun s2 t => memRemove s2 (tagKeyOf t)) s).data
          ("cache.tags." ++ c) = none))
  | [], s => by
      intro _ _
      exact ⟨rfl, fun k _ => rfl, fun t ht => absurd ht (List.not_mem_nil t),
        fun c _ hc => hc⟩
  | t1 :: rest, s => by
      intro hall hopt
      have ht1 := hall t1 (List.mem_cons_self t1 rest)
      have e1 : (memRemove s (tagKeyOf t1)).data =
          rootUnset s.data ("cache.tags." ++ t1) := by
        rw [memRemove_data]
        have hp : s.parseKey (tagKeyOf t1) = "cache.tags." ++ t1 := by
          unfold MemoryState.parseKey
          rw [hopt]
          exact tagPathOk_parse1 t1 ht1
        rw [hp]
      have hopt1 : (memRemove s (tagKeyOf t1)).options.globalPre = none := by
        rw [memRemove_options]
        exact hopt
      have hrec := foldRemove_tags_state rest (memRemove s (tagKeyOf t1))
        (fun t ht => hall t (List.mem_cons_of_mem t1 ht)) hopt1
      have hunf : (t1 :: rest).foldl (fun s2 t => memRemove s2 (tagKeyOf t)) s =
          rest.foldl (fun s2 t => memRemove s2 (tagKeyOf t))
            (memRemove s (tagKeyOf t1)) := rfl
      refine ⟨?_, ?_, ?_, ?_⟩
      · rw [hunf, hrec.1, memRemove_options]
      · intro k hk
        rw [hunf, hrec.2.1 k hk, e1]
        exact find_rootUnset_deep s.data k "cache" "tags" t1 _
          (tagPathOk_segs t1 ht1) (flatPlainKey_ne_cache k hk)
      · intro t htmem
        rcases List.mem_cons.mp htmem with hteq | htrest
        · subst hteq
          have hafter : rootGet (memRemove s (tagKeyOf t)).data
              ("cache.tags." ++ t) = none := by
            rw [e1]
            exact rootGet_rootUnset_deep_self s.data "cache" "tags" t _ _
              (tagPathOk_segs t ht1) (tagPathOk_segs t ht1)
          rw [hunf]
          exact hrec.2.2.2 t ht1 hafter
        · rw [hunf]
          exact hrec.2.2.1 t htrest
      · intro c hc hnone
        have hafter : rootGet (memRemove s (tagKeyOf t1)).data
            ("cache.tags." ++ c) = none := by
          rw [e1]
          exact rootGet_rootUnset_deep_none s.data "cache" "tags" c t1 _ _
            (tagPathOk_segs c hc) (tagPathOk_segs t1 ht1) hnone
        rw [hunf]
        exact hrec.2.2.2 c hc hafter

/-- C6: for a tagged cache over the memory driver (no global prefix, plain
flat member keys, well-formed tag names), `invalidate()` removes exactly
the union of the bound tags' key-sets plus the tags' own index entries:
afterwards every formerly tagged key and every bound tag's index entry is
gone (its `get` is `null`), while the stored entry of every other flat
plain key — in particular keys recorded only under other tags — is
unchanged. -/
theorem c6_invalidate_removes_tagged_keys (now : ℤ) (fresh : Nat)
    (tags : List String) (st : MemoryState)
    (hpre : st.options.globalPre = none)
    (htags : ∀ t ∈ tags, tagPathOk t = true)
    (hkeys : ∀ k ∈ (getTaggedKeys now fresh tags st).1, flatPlainKey k = true) :
    (∀ k ∈ (getTaggedKeys now fresh tags st).1,
      memStoredEntry (taggedInvalidate now fresh tags st) k = none ∧
      ∀ (n2 : ℤ) (fr2 : Nat),
        (memGet n2 fr2 (taggedInvalidate now fresh tags st) k).1 =
          JVal.vNull) ∧
    (∀ t ∈ tags,
      memStoredEntry (taggedInvalidate now fresh tags st) (tagKeyOf t) =
        none ∧
      ∀ (n2 : ℤ) (fr2 : Nat),
        (memGet n2 fr2 (taggedInvalidate now fresh tags st) (tagKeyOf t)).1 =
          JVal.vNull) ∧
    (∀ k, flatPlainKey k = true → k ∉ (getTaggedKeys now fresh tags st).1 →
      memStoredEntry (taggedInvalidate now fresh tags st) k =
        memStoredEntry st k) := by
  have hphase1 := getTaggedKeysAux_state now fresh tags [] st htags hpre
  have hph1find : ∀ k, flatPlainKey k = true →
      MChildren.find k (getTaggedKeys now fresh tags st).2.data =
        MChildren.find k st.data := hphase1.2
  have hopt1 : (getTaggedKeys now fresh tags st).2.options.globalPre = none := by
    show (getTaggedKeysAux now fresh tags [] st).2.options.globalPre = none
    rw [hphase1.1]
    exact hpre
  have hphase2 := foldRemove_flat_state (getTaggedKeys now fresh tags st).1
    (getTaggedKeys now fresh tags st).2 hkeys hopt1
  have hopt2 : ((getTaggedKeys now fresh tags st).1.foldl
      (fun s2 k => memRemove s2 k)
      (getTaggedKeys now fresh tags st).2).options.globalPre = none := by
    rw [hphase2.1]
    exact hopt1
  have hphase3 := foldRemove_tags_state tags
    ((getTaggedKeys now fresh tags st).1.foldl (fun s2 k => memRemove s2 k)
      (getTaggedKeys now fresh tags st).2) htags hopt2
  have hfineq : taggedInvalidate now fresh tags st =
      tags.foldl (fun s2 t => memRemove s2 (tagKeyOf t))
        ((getTaggedKeys now fresh tags st).1.foldl (fun s2 k => memRemove s2 k)
          (getTaggedKeys now fresh tags st).2) := rfl
  have hfinopt : (taggedInvalidate now fresh tags st).options = st.options := by
    rw [hfineq, hphase3.1, hphase2.1, show (getTaggedKeys now fresh tags st).2.options = st.options from hphase1.1]
  have hfinpre : (taggedInvalidate now fresh tags st).options.globalPre =
      none := by
    rw [hfinopt]
    exact hpre
  refine ⟨?_, ?_, ?_⟩
  · intro k hk
    have hflat := hkeys k hk
    have hfind : MChildren.find k (taggedInvalidate now fresh tags st).data =
        none := by
      rw [hfineq, hphase3.2.1 k hflat]
      exact hphase2.2.2 k hk
    have hparse : (taggedInvalidate now fresh tags st).parseKey k = k := by
      unfold MemoryState.parseKey
      rw [hfinpre]
      exact flatPlainKey_parse k hflat
    have hroot : rootGet (taggedInvalidate now fresh tags st).data
        ((taggedInvalidate now fresh tags st).parseKey k) = none := by
      rw [hparse, rootGet_flat _ k (flatPlainKey_segs k hflat), hfind]
    exact ⟨memStoredEntry_of_rootGet_none _ k hroot,
      fun n2 fr2 => memGet_of_rootGet_none n2 fr2 _ k hroot⟩
  · intro t ht
    have htok := htags t ht
    have hroot0 : rootGet (taggedInvalidate now fresh tags st).data
        ("cache.tags." ++ t) = none := by
      rw [hfineq]
      exact hphase3.2.2.1 t ht
    have hparse : (taggedInvalidate now fresh tags st).parseKey (tagKeyOf t) =
        "cache.tags." ++ t := by
      unfold MemoryState.parseKey
      rw [hfinpre]
      exact tagPathOk_parse1 t htok
    have hroot : rootGet (taggedInvalidate now fresh tags st).data
        ((taggedInvalidate now fresh tags st).parseKey (tagKeyOf t)) = none := by
      rw [hparse]
      exact hroot0
    exact ⟨memStoredEntry_of_rootGet_none _ _ hroot,
      fun n2 fr2 => memGet_of_rootGet_none n2 fr2 _ _ hroot⟩
  · intro k hflat hnot
    have hfind : MChildren.find k (taggedInvalidate now fresh tags st).data =
        MChildren.find k st.data := by
      rw [hfineq, hphase3.2.1 k hflat, hphase2.2.1 k hflat hnot,
        hph1find k hflat]
    have hparse : (taggedInvalidate now fresh tags st).parseKey k = k := by
      unfold MemoryState.parseKey
      rw [hfinpre]
      exact flatPlainKey_parse k hflat
    have hparse2 : st.parseKey k = k := by
      unfold MemoryState.parseKey
      rw [hpre]
      exact flatPlainKey_parse k hflat
    unfold memStoredEntry
    rw [hparse, hparse2, rootGet_flat _ k (flatPlainKey_segs k hflat),
      rootGet_flat _ k (flatPlainKey_segs k hflat), hfind]

/-- C6 witness: the theorem applied to the concrete scenario — tag `A` on
`key1`/`key2`, tag `B` on `key3`, invalidating the `A` instance. -/
theorem c6_invalidate_witness :
    memStoredEntry (taggedInvalidate 0 80 ["A"] c6built) "key1" = none ∧
    (memGet 0 0 (taggedInvalidate 0 80 ["A"] c6built) "key2").1 =
      JVal.vNull ∧
    memStoredEntry (taggedInvalidate 0 80 ["A"] c6built) (tagKeyOf "A") =
      none ∧
    memStoredEntry (taggedInvalidate 0 80 ["A"] c6built) "key3" =
      memStoredEntry c6built "key3" := by
  have h := c6_invalidate_removes_tagged_keys 0 80 ["A"] c6built (by decide)
    (by decide) (by decide)
  exact ⟨(h.1 "key1" (by decide)).1, (h.1 "key2" (by decide)).2 0 0,
    (h.2.1 "A" (by decide)).1, h.2.2 "key3" (by decide) (by decide)⟩

/-! ## The stampede guard: counterexample and invariant proof -/

/-- C3 counterexample: both `remember` calls are issued — their synchronous
store reads execute — before the first producer resolves, yet a schedule
that delays the second caller's lock check past the first ticket's release
(realizable with an asynchronous `miss`-event handler inside `get`)
invokes the producer twice, and the two callers finish with different
values. -/
theorem c3_stampede_two_invocations :
    c3run.readAfterRes = false ∧
    c3run.invoked = 2 ∧
    c3run.callers.get? 0 = some (CStat.doneC (JVal.vNum (JNum.fin 0))) ∧
    c3run.callers.get? 1 = some (CStat.doneC (JVal.vNum (JNum.fin 1))) ∧
    (JVal.vNum (JNum.fin 0) : JVal) ≠ JVal.vNum (JNum.fin 1) := by decide

theorem get?_some_lt {α : Type} : (l : List α) → (i : Nat) → (a : α) →
    l.get? i = some a → i < l.length
  | [], i, a, h => by simp [List.get?] at h
  | x :: xs, 0, a, h => by simp
  | x :: xs, i + 1, a, h => by
      have := get?_some_lt xs i a (by simpa [List.get?] using h)
      simpa using Nat.succ_lt_succ this

theorem get?_set_self {α : Type} : (l : List α) → (i : Nat) → (a : α) →
    i < l.length → (l.set i a).get? i = some a
  | [], i, a, h => absurd h (by simp)
  | x :: xs, 0, a, h => rfl
  | x :: xs, i + 1, a, h =>
      get?_set_self xs i a (by simpa using Nat.lt_of_succ_lt_succ h)

theorem get?_set_other {α : Type} : (l : List α) → (i j : Nat) → (a : α) →
    j ≠ i → (l.set i a).get? j = l.get? j
  | [], i, j, a, h => rfl
  | x :: xs, 0, 0, a, h => absurd rfl h
  | x :: xs, 0, j + 1, a, h => rfl
  | x :: xs, i + 1, 0, a, h => rfl
  | x :: xs, i + 1, j + 1, a, h =>
      get?_set_other xs i j a (fun hh => h (by rw [hh]))

theorem settleAwaiting_get? (t : Nat) (v : JVal) : (l : List CStat) →
    (i : Nat) → (settleAwaiting t v l).get? i = (l.get? i).map (settleOne t v)
  | [], i => by simp [settleAwaiting]
  | c :: rest, 0 => rfl
  | c :: rest, i + 1 => settleAwaiting_get? t v rest i

theorem settleAwaiting_length (t : Nat) (v : JVal) : (l : List CStat) →
    (settleAwaiting t v l).length = l.length
  | [] => rfl
  | c :: rest => by simp [settleAwaiting, settleAwaiting_length t v rest]

theorem stepG_callers_length (prodVal : Nat → JVal) (g : GState) (i : Nat) :
    (stepG prodVal g i).callers.length = g.callers.length := by
  unfold stepG
  rcases hc : g.callers.get? i with _ | c
  · rfl
  · cases c with
    | ready => simp
    | checked snap =>
        by_cases hs : snap.truthy = true
        · simp [hs]
        · rcases hl : g.lockT with _ | t <;> simp [hs, hl]
    | producing ph v =>
        cases ph <;> simp [settleAwaiting_length]
    | awaitingT t => rfl
    | doneC r => rfl

theorem runG_callers_length (prodVal : Nat → JVal) (n : Nat)
    (sched : List Nat) : (runG prodVal n sched).callers.length = n := by
  unfold runG
  have h : ∀ (l : List Nat) (g : GState),
      (l.foldl (stepG prodVal) g).callers.length = g.callers.length := by
    intro l
    induction l with
    | nil => intro g; rfl
    | cons x rest ih =>
        intro g
        rw [List.foldl_cons, ih, stepG_callers_length]
  rw [h]
  simp [initG]

theorem get?_replicate_eq {α : Type} : (n i : Nat) → (x c : α) →
    (List.replicate n x).get? i = some c → c = x
  | 0, i, x, c, h => by simp [List.replicate] at h
  | n + 1, 0, x, c, h => by
      simp [List.replicate] at h
      exact h.symm
  | n + 1, i + 1, x, c, h => get?_replicate_eq n i x c h

theorem settleOne_producing (t : Nat) (v : JVal) (c : CStat) (ph : ProdPhase)
    (v2 : JVal) (h : settleOne t v c = CStat.producing ph v2) :
    c = CStat.producing ph v2 := by
  cases c <;> simp [settleOne] at h ⊢
  · rename_i t2
    by_cases ht : t2 = t <;> simp [ht] at h
  · exact h

theorem CStat.not_producing_of_false (c : CStat) (h : c.isProducing = false)
    (ph : ProdPhase) (v : JVal) : c ≠ CStat.producing ph v := by
  intro hh
  rw [hh] at h
  simp [CStat.isProducing] at h

theorem ticketInv_set_nonprod (g : GState) (i : Nat) (c c' : CStat)
    (hc : g.callers.get? i = some c)
    (hnp : c.isProducing = false) (hnp' : c'.isProducing = false)
    (htick : ticketInv g) :
    (∀ j, g.lockT = some j →
      ∃ ph v, (g.callers.set i c').get? j = some (CStat.producing ph v)) ∧
    (∀ j ph v, (g.callers.set i c').get? j = some (CStat.producing ph v) →
      g.lockT = some j) := by
  obtain ⟨h1, h2⟩ := htick
  constructor
  · intro j hj
    obtain ⟨ph, v, hpv⟩ := h1 j hj
    have hji : j ≠ i := by
      intro hh
      rw [hh, hc] at hpv
      injection hpv with hpv2
      rw [hpv2] at hnp
      simp [CStat.isProducing] at hnp
    exact ⟨ph, v, by rw [get?_set_other _ i j _ hji]; exact hpv⟩
  · intro j ph v hpv
    by_cases hji : j = i
    · subst hji
      rw [get?_set_self _ j _ (get?_some_lt _ j c hc)] at hpv
      injection hpv with hpv2
      rw [hpv2] at hnp'
      simp [CStat.isProducing] at hnp'
    · rw [get?_set_other _ i j _ hji] at hpv
      exact h2 j ph v hpv

set_option maxHeartbeats 1000000 in
theorem stepG_preserves (prodVal : Nat → JVal) (g : GState) (i : Nat)
    (hinv : stampedeInv prodVal g) : stampedeInv prodVal (stepG prodVal g i) := by
  obtain ⟨htick, hgood⟩ := hinv
  unfold stepG
  rcases hc : g.callers.get? i with _ | c
  · exact ⟨htick, hgood⟩
  have hlen : i < g.callers.length := get?_some_lt _ i c hc
  cases c with
  | ready =>
      refine ⟨ticketInv_set_nonprod g i _ _ hc rfl rfl htick, ?_⟩
      intro hflag
      rcases hgood hflag with hzero | ⟨hone, p, hcase⟩
      · left
        obtain ⟨hi0, hcache, hlock, hrel, hcls⟩ := hzero
        refine ⟨hi0, hcache, hlock, hrel, ?_⟩
        intro j cj hcj
        by_cases hji : j = i
        · subst hji
          rw [get?_set_self _ j _ hlen] at hcj
          injection hcj with hcj2
          rw [← hcj2, hcache]
          right
          rfl
        · rw [get?_set_other _ i j _ hji] at hcj
          exact hcls j cj hcj
      · right
        refine ⟨hone, p, ?_⟩
        have hip : i ≠ p := by
          intro hh
          subst hh
          rcases hcase with hA | hB | hC
          · obtain ⟨hp, _⟩ := hA
            rcases hp with h1 | h1 <;> rw [hc] at h1 <;> simp at h1
          · obtain ⟨h1, _⟩ := hB
            rw [hc] at h1
            simp at h1
          · obtain ⟨h1, _⟩ := hC
            rw [hc] at h1
            simp at h1
        rcases hcase with hA | hB | hC
        · left
          obtain ⟨hp, hlock, hrel, hcache, hcls⟩ := hA
          refine ⟨?_, hlock, hrel, hcache, ?_⟩
          · rcases hp with h1 | h1
            · left
              rw [get?_set_other _ i p _ (fun hh => hip hh.symm)]
              exact h1
            · right
              rw [get?_set_other _ i p _ (fun hh => hip hh.symm)]
              exact h1
          · intro j cj hjp hcj
            by_cases hji : j = i
            · subst hji
              rw [get?_set_self _ j _ hlen] at hcj
              injection hcj with hcj2
              rw [← hcj2, hcache]
              left
              right
              rfl
            · rw [get?_set_other _ i j _ hji] at hcj
              exact hcls j cj hjp hcj
        · right
          left
          obtain ⟨hp, hlock, hrel, hcache, hcls⟩ := hB
          refine ⟨?_, hlock, hrel, hcache, ?_⟩
          · rw [get?_set_other _ i p _ (fun hh => hip hh.symm)]
            exact hp
          · intro j cj hjp hcj
            by_cases hji : j = i
            · subst hji
              rw [get?_set_self _ j _ hlen] at hcj
              injection hcj with hcj2
              rw [← hcj2, hcache]
              right
              left
              rfl
            · rw [get?_set_other _ i j _ hji] at hcj
              exact hcls j cj hjp hcj
        · right
          right
          obtain ⟨hp, hlock, hrel, hcache, hcls⟩ := hC
          refine ⟨?_, hlock, hrel, hcache, ?_⟩
          · rw [get?_set_other _ i p _ (fun hh => hip hh.symm)]
            exact hp
          · intro j cj hjp hcj
            by_cases hji : j = i
            · subst hji
              rw [get?_set_self _ j _ hlen] at hcj
              injection hcj with hcj2
              rw [← hcj2, hcache]
              right
              left
              rfl
            · rw [get?_set_other _ i j _ hji] at hcj
              exact hcls j cj hjp hcj
  | checked snap =>
      dsimp only
      split
      · -- snap truthy: caller finishes with the cached value
        rename_i hs
        refine ⟨ticketInv_set_nonprod g i _ _ hc rfl rfl htick, ?_⟩
        intro hflag
        have hflag2 : (g.checkAfterRel || g.released) = false := hflag
        have hflag0 : g.checkAfterRel = false := by
          rcases Bool.or_eq_false_iff.mp hflag2 with ⟨h1, h2⟩
          exact h1
        have hrel0 : g.released = false := by
          rcases Bool.or_eq_false_iff.mp hflag2 with ⟨h1, h2⟩
          exact h2
        rcases hgood hflag0 with hzero | ⟨hone, p, hcase⟩
        · obtain ⟨hi0, hcache, hlock, hrel, hcls⟩ := hzero
          rcases hcls i _ hc with h1 | h1
          · simp at h1
          · injection h1 with h2
            rw [h2] at hs
            simp [JVal.truthy] at hs
        · rcases hcase with hA | hB | hC
          · obtain ⟨hp, hlock, hrel, hcache, hcls⟩ := hA
            have hip : i ≠ p := by
              intro hh
              subst hh
              rcases hp with h1 | h1 <;> rw [hc] at h1 <;> simp at h1
            rcases hcls i _ hip hc with h1 | h1
            · rcases h1 with h2 | h2
              · simp at h2
              · injection h2 with h3
                rw [h3] at hs
                simp [JVal.truthy] at hs
            · simp at h1
          · obtain ⟨hp, hlock, hrel, hcache, hcls⟩ := hB
            have hip : i ≠ p := by
              intro hh
              subst hh
              rw [hc] at hp
              simp at hp
            rcases hcls i _ hip hc with h1 | h1 | h1 | h1
            · rcases h1 with h2 | h2
              · simp at h2
              · injection h2 with h3
                rw [h3] at hs
                simp [JVal.truthy] at hs
            · -- snap = prodVal 0: the caller finishes with the produced value
              injection h1 with h2
              right
              refine ⟨hone, p, Or.inr (Or.inl ?_)⟩
              refine ⟨?_, hlock, hrel, hcache, ?_⟩
              · rw [get?_set_other _ i p _ (fun hh => hip hh.symm)]
                exact hp
              · intro j cj hjp hcj
                by_cases hji : j = i
                · subst hji
                  rw [get?_set_self _ j _ hlen] at hcj
                  injection hcj with hcj2
                  rw [← hcj2, h2]
                  right
                  right
                  right
                  rfl
                · rw [get?_set_other _ i j _ hji] at hcj
                  exact hcls j cj hjp hcj
            · simp at h1
            · simp at h1
          · obtain ⟨hp, hlock, hrel, hcache, hcls⟩ := hC
            rw [hrel] at hrel0
            cases hrel0
      · -- snap falsy: lock check
        split
        · -- existing ticket: await it
          rename_i hs t heq
          refine ⟨ticketInv_set_nonprod g i _ _ hc rfl rfl htick, ?_⟩
          intro hflag
          have hflag2 : (g.checkAfterRel || g.released) = false := hflag
          have hflag0 : g.checkAfterRel = false := by
            rcases Bool.or_eq_false_iff.mp hflag2 with ⟨h1, h2⟩
            exact h1
          have hrel0 : g.released = false := by
            rcases Bool.or_eq_false_iff.mp hflag2 with ⟨h1, h2⟩
            exact h2
          rcases hgood hflag0 with hzero | ⟨hone, p, hcase⟩
          · obtain ⟨hi0, hcache, hlock, hrel, hcls⟩ := hzero
            rw [hlock] at heq
            cases heq
          · rcases hcase with hA | hB | hC
            · obtain ⟨hp, hlock, hrel, hcache, hcls⟩ := hA
              have htp : t = p := by
                rw [hlock] at heq
                injection heq with h2
                exact h2.symm
              have hip : i ≠ p := by
                intro hh
                subst hh
                rcases hp with h1 | h1 <;> rw [hc] at h1 <;> simp at h1
              right
              refine ⟨hone, p, Or.inl ?_⟩
              refine ⟨?_, hlock, hrel, hcache, ?_⟩
              · rcases hp with h1 | h1
                · left
                  rw [get?_set_other _ i p _ (fun hh => hip hh.symm)]
                  exact h1
                · right
                  rw [get?_set_other _ i p _ (fun hh => hip hh.symm)]
                  exact h1
              · intro j cj hjp hcj
                by_cases hji : j = i
                · subst hji
                  rw [get?_set_self _ j _ hlen] at hcj
                  injection hcj with hcj2
                  rw [← hcj2, htp]
                  right
                  rfl
                · rw [get?_set_other _ i j _ hji] at hcj
                  exact hcls j cj hjp hcj
            · obtain ⟨hp, hlock, hrel, hcache, hcls⟩ := hB
              have htp : t = p := by
                rw [hlock] at heq
                injection heq with h2
                exact h2.symm
              have hip : i ≠ p := by
                intro hh
                subst hh
                rw [hc] at hp
                simp at hp
              right
              refine ⟨hone, p, Or.inr (Or.inl ?_)⟩
              refine ⟨?_, hlock, hrel, hcache, ?_⟩
              · rw [get?_set_other _ i p _ (fun hh => hip hh.symm)]
                exact hp
              · intro j cj hjp hcj
                by_cases hji : j = i
                · subst hji
                  rw [get?_set_self _ j _ hlen] at hcj
                  injection hcj with hcj2
                  rw [← hcj2, htp]
                  right
                  right
                  left
                  rfl
                · rw [get?_set_other _ i j _ hji] at hcj
                  exact hcls j cj hjp hcj
            · obtain ⟨hp, hlock, hrel, hcache, hcls⟩ := hC
              rw [hrel] at hrel0
              cases hrel0
        · -- free lock: acquire it and invoke the producer
          rename_i hs heq
          refine ⟨⟨?_, ?_⟩, ?_⟩
          · intro j hj
            have hj2 : i = j := by
              injection hj with h2
            subst hj2
            exact ⟨ProdPhase.needResolve, prodVal g.invoked,
              get?_set_self _ i _ hlen⟩
          · intro j ph2 v2 hpv
            by_cases hji : j = i
            · subst hji
              rfl
            · rw [get?_set_other _ i j _ hji] at hpv
              have h2 := htick.2 j ph2 v2 hpv
              rw [heq] at h2
              cases h2
          · intro hflag
            have hflag2 : (g.checkAfterRel || g.released) = false := hflag
            have hflag0 : g.checkAfterRel = false := by
              rcases Bool.or_eq_false_iff.mp hflag2 with ⟨h1, h2⟩
              exact h1
            have hrel0 : g.released = false := by
              rcases Bool.or_eq_false_iff.mp hflag2 with ⟨h1, h2⟩
              exact h2
            rcases hgood hflag0 with hzero | ⟨hone, p, hcase⟩
            · obtain ⟨hi0, hcache, hlock, hrel, hcls⟩ := hzero
              right
              refine ⟨by rw [hi0], i, Or.inl ?_⟩
              refine ⟨?_, rfl, hrel0, hcache, ?_⟩
              · left
                rw [hi0]
                exact get?_set_self _ i _ hlen
              · intro j cj hjp hcj
                rw [get?_set_other _ i j _ hjp] at hcj
                exact Or.inl (hcls j cj hcj)
            · rcases hcase with hA | hB | hC
              · rw [hA.2.1] at heq
                cases heq
              · rw [hB.2.1] at heq
                cases heq
              · rw [hC.2.2.1] at hrel0
                cases hrel0
  | awaitingT t => exact ⟨htick, hgood⟩
  | producing ph v =>
      cases ph with
      | needResolve =>
          refine ⟨⟨?_, ?_⟩, ?_⟩
          · intro j hj
            by_cases hji : j = i
            · subst hji
              exact ⟨ProdPhase.needSet, v, get?_set_self _ j _ hlen⟩
            · obtain ⟨ph2, v2, hpv⟩ := htick.1 j hj
              refine ⟨ph2, v2, ?_⟩
              rw [get?_set_other _ i j _ hji]
              exact hpv
          · intro j ph2 v2 hpv
            by_cases hji : j = i
            · subst hji
              exact htick.2 j ProdPhase.needResolve v hc
            · rw [get?_set_other _ i j _ hji] at hpv
              exact htick.2 j ph2 v2 hpv
          · intro hflag
            have hflag0 : g.checkAfterRel = false := hflag
            rcases hgood hflag0 with hzero | ⟨hone, p, hcase⟩
            · obtain ⟨hi0, hcache, hlock, hrel, hcls⟩ := hzero
              rcases hcls i _ hc with h1 | h1 <;> simp at h1
            · rcases hcase with hA | hB | hC
              · obtain ⟨hp, hlock, hrel, hcache, hcls⟩ := hA
                have hip : i = p := by
                  by_contra hne
                  rcases hcls i _ hne hc with h1 | h1
                  · rcases h1 with h2 | h2 <;> simp at h2
                  · simp at h1
                subst hip
                have hv : v = prodVal 0 := by
                  rcases hp with h1 | h1 <;> rw [hc] at h1 <;> simp at h1
                  exact h1
                right
                refine ⟨hone, i, Or.inl ?_⟩
                refine ⟨?_, hlock, hrel, hcache, ?_⟩
                · right
                  rw [get?_set_self _ i _ hlen, hv]
                · intro j cj hjp hcj
                  rw [get?_set_other _ i j _ hjp] at hcj
                  exact hcls j cj hjp hcj
              · obtain ⟨hp, hlock, hrel, hcache, hcls⟩ := hB
                have hip : i = p := by
                  by_contra hne
                  rcases hcls i _ hne hc with h1 | h1 | h1 | h1
                  · rcases h1 with h2 | h2 <;> simp at h2
                  · simp at h1
                  · simp at h1
                  · simp at h1
                subst hip
                rw [hc] at hp
                injection hp with h2
                injection h2 with h3 h4
                cases h3
              · obtain ⟨hp, hlock, hrel, hcache, hcls⟩ := hC
                have hip : i = p := by
                  by_contra hne
                  rcases hcls i _ hne hc with h1 | h1 | h1
                  · rcases h1 with h2 | h2 <;> simp at h2
                  · simp at h1
                  · simp at h1
                subst hip
                rw [hc] at hp
                simp at hp
      | needSet =>
          refine ⟨⟨?_, ?_⟩, ?_⟩
          · intro j hj
            by_cases hji : j = i
            · subst hji
              exact ⟨ProdPhase.needRelease, v, get?_set_self _ j _ hlen⟩
            · obtain ⟨ph2, v2, hpv⟩ := htick.1 j hj
              refine ⟨ph2, v2, ?_⟩
              rw [get?_set_other _ i j _ hji]
              exact hpv
          · intro j ph2 v2 hpv
            by_cases hji : j = i
            · subst hji
              exact htick.2 j ProdPhase.needSet v hc
            · rw [get?_set_other _ i j _ hji] at hpv
              exact htick.2 j ph2 v2 hpv
          · intro hflag
            have hflag0 : g.checkAfterRel = false := hflag
            rcases hgood hflag0 with hzero | ⟨hone, p, hcase⟩
            · obtain ⟨hi0, hcache, hlock, hrel, hcls⟩ := hzero
              rcases hcls i _ hc with h1 | h1 <;> simp at h1
            · rcases hcase with hA | hB | hC
              · obtain ⟨hp, hlock, hrel, hcache, hcls⟩ := hA
                have hip : i = p := by
                  by_contra hne
                  rcases hcls i _ hne hc with h1 | h1
                  · rcases h1 with h2 | h2 <;> simp at h2
                  · simp at h1
                subst hip
                have hv : v = prodVal 0 := by
                  rcases hp with h1 | h1 <;> rw [hc] at h1 <;> simp at h1
                  exact h1
                right
                refine ⟨hone, i, Or.inr (Or.inl ?_)⟩
                refine ⟨?_, hlock, hrel, by rw [hv], ?_⟩
                · rw [get?_set_self _ i _ hlen, hv]
                · intro j cj hjp hcj
                  rw [get?_set_other _ i j _ hjp] at hcj
                  rcases hcls j cj hjp hcj with h1 | h1
                  · exact Or.inl h1
                  · exact Or.inr (Or.inr (Or.inl h1))
              · obtain ⟨hp, hlock, hrel, hcache, hcls⟩ := hB
                have hip : i = p := by
                  by_contra hne
                  rcases hcls i _ hne hc with h1 | h1 | h1 | h1
                  · rcases h1 with h2 | h2 <;> simp at h2
                  · simp at h1
                  · simp at h1
                  · simp at h1
                subst hip
                rw [hc] at hp
                injection hp with h2
                injection h2 with h3 h4
                cases h3
              · obtain ⟨hp, hlock, hrel, hcache, hcls⟩ := hC
                have hip : i = p := by
                  by_contra hne
                  rcases hcls i _ hne hc with h1 | h1 | h1
                  · rcases h1 with h2 | h2 <;> simp at h2
                  · simp at h1
                  · simp at h1
                subst hip
                rw [hc] at hp
                simp at hp
      | needRelease =>
          have hlen2 : i < (settleAwaiting i v g.callers).length := by
            rw [settleAwaiting_length]
            exact hlen
          refine ⟨⟨?_, ?_⟩, ?_⟩
          · intro j hj
            cases hj
          · intro j ph2 v2 hpv
            by_cases hji : j = i
            · subst hji
              rw [get?_set_self _ j _ hlen2] at hpv
              injection hpv with h2
              cases h2
            · rw [get?_set_other _ i j _ hji] at hpv
              rw [settleAwaiting_get? i v g.callers j] at hpv
              obtain ⟨c0, hc0, hs0⟩ := Option.map_eq_some'.mp hpv
              have hc0p := settleOne_producing i v c0 ph2 v2 hs0
              rw [hc0p] at hc0
              have h2 := htick.2 j ph2 v2 hc0
              have h3 := htick.2 i ProdPhase.needRelease v hc
              rw [h3] at h2
              injection h2 with h4
              exact absurd h4.symm hji
          · intro hflag
            have hflag0 : g.checkAfterRel = false := hflag
            rcases hgood hflag0 with hzero | ⟨hone, p, hcase⟩
            · obtain ⟨hi0, hcache, hlock, hrel, hcls⟩ := hzero
              rcases hcls i _ hc with h1 | h1 <;> simp at h1
            · rcases hcase with hA | hB | hC
              · obtain ⟨hp, hlock, hrel, hcache, hcls⟩ := hA
                have hip : i = p := by
                  by_contra hne
                  rcases hcls i _ hne hc with h1 | h1
                  · rcases h1 with h2 | h2 <;> simp at h2
                  · simp at h1
                subst hip
                rcases hp with h1 | h1 <;> rw [hc] at h1 <;>
                  injection h1 with h2 <;> injection h2 with h3 h4 <;>
                  cases h3
              · obtain ⟨hp, hlock, hrel, hcache, hcls⟩ := hB
                have hip : i = p := by
                  by_contra hne
                  rcases hcls i _ hne hc with h1 | h1 | h1 | h1
                  · rcases h1 with h2 | h2 <;> simp at h2
                  · simp at h1
                  · simp at h1
                  · simp at h1
                subst hip
                have hv : v = prodVal 0 := by
                  rw [hc] at hp
                  simp at hp
                  exact hp
                right
                refine ⟨hone, i, Or.inr (Or.inr ?_)⟩
                refine ⟨?_, rfl, rfl, hcache, ?_⟩
                · rw [get?_set_self _ i _ hlen2, hv]
                · intro j cj hjp hcj
                  rw [get?_set_other _ i j _ hjp] at hcj
                  rw [settleAwaiting_get? i v g.callers j] at hcj
                  obtain ⟨c0, hc0, hs0⟩ := Option.map_eq_some'.mp hcj
                  rcases hcls j c0 hjp hc0 with h1 | h1 | h1 | h1
                  · rcases h1 with h2 | h2 <;> rw [h2] at hs0 <;>
                      rw [← hs0]
                    · left
                      left
                      rfl
                    · left
                      right
                      rfl
                  · rw [h1] at hs0
                    rw [← hs0]
                    right
                    left
                    rfl
                  · rw [h1] at hs0
                    rw [← hs0]
                    simp [settleOne, hv]
                  · rw [h1] at hs0
                    rw [← hs0]
                    right
                    right
                    rfl
              · obtain ⟨hp, hlock, hrel, hcache, hcls⟩ := hC
                have hip : i = p := by
                  by_contra hne
                  rcases hcls i _ hne hc with h1 | h1 | h1
                  · rcases h1 with h2 | h2 <;> simp at h2
                  · simp at h1
                  · simp at h1
                subst hip
                rw [hc] at hp
                simp at hp
  | doneC r => exact ⟨htick, hgood⟩

theorem initG_inv (prodVal : Nat → JVal) (n : Nat) :
    stampedeInv prodVal (initG n) := by
  refine ⟨⟨?_, ?_⟩, ?_⟩
  · intro j hj
    cases hj
  · intro j ph v hpv
    have h2 := get?_replicate_eq n j CStat.ready _ hpv
    cases h2
  · intro hflag
    left
    refine ⟨rfl, rfl, rfl, rfl, ?_⟩
    intro j c hcj
    have h2 := get?_replicate_eq n j CStat.ready c hcj
    rw [h2]
    left
    rfl

theorem runG_inv (prodVal : Nat → JVal) (n : Nat) (sched : List Nat) :
    stampedeInv prodVal (runG prodVal n sched) := by
  unfold runG
  have h : ∀ (l : List Nat) (g : GState), stampedeInv prodVal g →
      stampedeInv prodVal (l.foldl (stepG prodVal) g) := by
    intro l
    induction l with
    | nil => intro g hg; exact hg
    | cons x rest ih =>
        intro g hg
        rw [List.foldl_cons]
        exact ih _ (stepG_preserves prodVal g x hg)
  exact h sched (initG n) (initG_inv prodVal n)

/-- C3 (amended): on one driver instance, at most one producer-lock ticket
exists per canonical key at any time, in every schedule — the lock always
names the unique in-flight producer.  And whenever no caller's lock check
runs after a ticket release (which holds in particular when all N calls
interleave within the first producer's in-flight window), the producer is
invoked exactly once and every finished caller receives the identical
first-produced value; without that proviso a delayed lock check can
re-acquire the freed lock and re-invoke the producer, as the
counterexample shows. -/
theorem c3_remember_stampede_guard (prodVal : Nat → JVal) (n : Nat)
    (sched : List Nat) :
    ((∀ i, (runG prodVal n sched).lockT = some i →
        ∃ ph v, (runG prodVal n sched).callers.get? i =
          some (CStat.producing ph v)) ∧
      (∀ i j ph v ph2 v2,
        (runG prodVal n sched).callers.get? i = some (CStat.producing ph v) →
        (runG prodVal n sched).callers.get? j =
          some (CStat.producing ph2 v2) →
        i = j)) ∧
    ((runG prodVal n sched).checkAfterRel = false →
      (runG prodVal n sched).callers.all CStat.isDone = true → 0 < n →
      (runG prodVal n sched).invoked = 1 ∧
      ∀ i r, (runG prodVal n sched).callers.get? i = some (CStat.doneC r) →
        r = prodVal 0) := by
  obtain ⟨⟨ht1, ht2⟩, hgood⟩ := runG_inv prodVal n sched
  refine ⟨⟨ht1, ?_⟩, ?_⟩
  · intro i j ph v ph2 v2 h1 h2
    have e1 := ht2 i ph v h1
    have e2 := ht2 j ph2 v2 h2
    rw [e1] at e2
    exact Option.some.inj e2
  · intro hflag hall hn
    have hlen := runG_callers_length prodVal n sched
    have hdoneAt : ∀ c0, c0 ∈ (runG prodVal n sched).callers →
        CStat.isDone c0 = true := List.all_eq_true.mp hall
    rcases hgood hflag with hzero | ⟨hone, p, hcase⟩
    · obtain ⟨hi0, hcache, hlock, hrel, hcls⟩ := hzero
      have h0 : 0 < (runG prodVal n sched).callers.length := by
        rw [hlen]
        exact hn
      rcases hg : (runG prodVal n sched).callers.get? 0 with _ | c0
      · rw [List.get?_eq_none] at hg
        omega
      · have hmem := List.get?_mem hg
        have hd := hdoneAt _ hmem
        rcases hcls 0 c0 hg with h1 | h1 <;> rw [h1] at hd <;>
          simp [CStat.isDone] at hd
    · refine ⟨hone, ?_⟩
      rcases hcase with hA | hB | hC
      · obtain ⟨hp, hlock, hrel, hcache, hcls⟩ := hA
        rcases hp with h1 | h1 <;>
          · have hmem := List.get?_mem h1
            have hd := hdoneAt _ hmem
            simp [CStat.isDone] at hd
      · obtain ⟨hp, hlock, hrel, hcache, hcls⟩ := hB
        have hmem := List.get?_mem hp
        have hd := hdoneAt _ hmem
        simp [CStat.isDone] at hd
      · obtain ⟨hp, hlock, hrel, hcache, hcls⟩ := hC
        intro i r hir
        by_cases hip : i = p
        · subst hip
          rw [hp] at hir
          injection hir with h2
          injection h2 with h3
          exact h3.symm
        · rcases hcls i _ hip hir with h1 | h1 | h1
          · rcases h1 with h2 | h2 <;> simp at h2
          · simp at h1
          · exact CStat.doneC.inj h1

/-- C3 witness: a two-caller schedule whose lock checks both precede the
release — the producer runs once and both callers get the first value. -/
theorem c3_remember_stampede_guard_witness :
    ((runG prodCount 2 [0, 0, 1, 1, 0, 0, 0]).checkAfterRel = false ∧
      (runG prodCount 2 [0, 0, 1, 1, 0, 0, 0]).callers.all CStat.isDone =
        true ∧
      0 < 2) ∧
    (runG prodCount 2 [0, 0, 1, 1, 0, 0, 0]).invoked = 1 ∧
    (∀ i r, (runG prodCount 2 [0, 0, 1, 1, 0, 0, 0]).callers.get? i =
        some (CStat.doneC r) → r = prodCount 0) :=
  ⟨⟨by decide, by decide, by decide⟩,
    (c3_remember_stampede_guard prodCount 2 [0, 0, 1, 1, 0, 0, 0]).2
      (by decide) (by decide) (by decide)⟩

end WarlockCache
